import Mathlib

/-!
Shallow embedding of the solitaire-js repository (src/solitaire.js, src/solve.js,
src/unnamed/part_001 = lrucache.js) and proofs about the claims of its
specification.

Modelling conventions:
* A JavaScript card is a two-character string, value letter then suit letter.
  We embed a card as a structure carrying the index of its value letter in the
  VALUES array (`v`, 0 = ace .. 12 = king) together with its suit; the
  two-character string is recovered by `Card.str`.  JavaScript strings are
  embedded as `List Char`.
* JavaScript arrays with push/pop at the end are embedded as Lean lists whose
  last element is the top (push = `++ [x]`, pop = `dropLast`/`getLast?`).
* Array indices in moves are natural numbers; the source's `< 0` range checks
  are vacuous for `Nat` and therefore omitted, the `>=` length checks are kept.
* JavaScript `array[i]` reads behind an in-range check are embedded with `getD`;
  `undefined`-producing reads (which crash or corrupt downstream in JS and are
  excluded by the `isValid` precondition of `applyMove`) are embedded with an
  `Option` match that leaves the state unchanged in the `none` case.
* `Math.random` based shuffling is not embedded; a deck is an input everywhere.
-/

/-- Suits of the deck; the source encodes them as the characters S, H, D, C. -/
inductive Suit
  | S
  | H
  | D
  | C
deriving DecidableEq, Repr

/-- A playing card: `v` is the index of its value letter in VALUES
(0 = ace, ..., 12 = king), `s` its suit. -/
structure Card where
  v : Nat
  s : Suit
deriving DecidableEq, Repr

instance : Inhabited Card := ⟨⟨0, Suit.S⟩⟩

/-- Order of suits in the SUITS constant of src/solitaire.js
(`[SPADES, HEARTS, DIAMONDS, CLUBS]`). -/
def SUITS : List Suit := [Suit.S, Suit.H, Suit.D, Suit.C]

/-- Value letters in order, as in the VALUES constant of the source. -/
def VALUES : List Char := ['A', '2', '3', '4', '5', '6', '7', '8', '9', 'T', 'J', 'Q', 'K']

/-- Character of a suit. -/
def Suit.char : Suit → Char
  | Suit.S => 'S'
  | Suit.H => 'H'
  | Suit.D => 'D'
  | Suit.C => 'C'

/-- Embedding of JavaScript strings. -/
abbrev Str := List Char

/-- Two-character string of a card, value letter then suit letter. -/
def Card.str (c : Card) : Str := [VALUES.getD c.v '?', c.s.char]

/-- The sorted 52-card deck: for each suit in SUITS order, values A..K
(SORTED_DECK of src/solitaire.js). -/
def SORTED_DECK : List Card :=
  (SUITS.map (fun s => (List.range 13).map (fun v => (⟨v, s⟩ : Card)))).flatten

/-- isBlack from src/solitaire.js. -/
def isBlack (c : Card) : Bool := c.s == Suit.S || c.s == Suit.C

/-- areDifferentColors from src/solitaire.js. -/
def areDifferentColors (c1 c2 : Card) : Bool := isBlack c1 != isBlack c2

/-- Rules from src/solitaire.js. -/
structure Rules where
  drawSize : Nat
  tableauSize : Nat
deriving DecidableEq, Repr

/-- A tableau column: faceDown and faceUp piles, last list element on top. -/
structure Column where
  faceDown : List Card
  faceUp : List Card
deriving DecidableEq, Repr

instance : Inhabited Column := ⟨⟨[], []⟩⟩

/-- The foundation map from suit to highest placed value index, or -1 if empty. -/
structure Foundation where
  S : Int
  H : Int
  D : Int
  C : Int
deriving DecidableEq, Repr

/-- Read the foundation entry of a suit. -/
def Foundation.get (f : Foundation) : Suit → Int
  | Suit.S => f.S
  | Suit.H => f.H
  | Suit.D => f.D
  | Suit.C => f.C

/-- Write the foundation entry of a suit. -/
def Foundation.write (f : Foundation) (s : Suit) (x : Int) : Foundation :=
  match s with
  | Suit.S => { f with S := x }
  | Suit.H => { f with H := x }
  | Suit.D => { f with D := x }
  | Suit.C => { f with C := x }

/-- Moves, as in the Move class of src/solitaire.js.  The JS class carries a
numeric type tag plus an extras array; the payload of each constructor is the
extras documented for that tag. -/
inductive Move
  | DRAW
  | WASTE_TO_FOUNDATION
  | WASTE_TO_TABLEAU (dstCol : Nat)
  | TABLEAU_TO_FOUNDATION (srcCol : Nat)
  | TABLEAU_TO_TABLEAU (srcCol srcRow dstCol : Nat)
  | FOUNDATION_TO_TABLEAU (suitIdx dstCol : Nat)
deriving DecidableEq, Repr

/-- The extras array of a move. -/
def Move.extras : Move → List Nat
  | Move.DRAW => []
  | Move.WASTE_TO_FOUNDATION => []
  | Move.WASTE_TO_TABLEAU d => [d]
  | Move.TABLEAU_TO_FOUNDATION s => [s]
  | Move.TABLEAU_TO_TABLEAU s r d => [s, r, d]
  | Move.FOUNDATION_TO_TABLEAU s d => [s, d]

/-- Game state of the Solitaire class. -/
structure Solitaire where
  rules : Rules
  foundation : Foundation
  hand : List Card
  waste : List Card
  tableau : List Column
deriving DecidableEq, Repr

/-- Solitaire.isValid from src/solitaire.js, case by case. -/
def Solitaire.isValid (g : Solitaire) (m : Move) : Bool :=
  match m with
  | Move.DRAW =>
    -- if both hand and waste are empty this fails
    !(g.hand.length == 0 && g.waste.length == 0)
  | Move.WASTE_TO_FOUNDATION =>
    match g.waste.getLast? with
    | none => false  -- must have at least one card in waste
    | some card =>
      -- value index must be foundation[suit] + 1
      decide ((card.v : Int) = g.foundation.get card.s + 1)
  | Move.WASTE_TO_TABLEAU dstCol =>
    match g.waste.getLast? with
    | none => false  -- waste must have cards
    | some srcCard =>
      if dstCol < g.tableau.length then
        let column := g.tableau.getD dstCol default
        match column.faceUp.getLast? with
        | none =>
          -- if tableau is empty, waste card must be a king
          decide (srcCard.v = 12)
        | some dstCard =>
          -- opposite colors and descending values
          areDifferentColors srcCard dstCard &&
            decide ((srcCard.v : Int) = (dstCard.v : Int) - 1)
      else false
  | Move.TABLEAU_TO_FOUNDATION srcCol =>
    if srcCol < g.tableau.length then
      let column := g.tableau.getD srcCol default
      match column.faceUp.getLast? with
      | none => false  -- column must contain at least one face-up card
      | some card =>
        -- card must be the next one for that suit's foundation
        decide ((card.v : Int) = g.foundation.get card.s + 1)
    else false
  | Move.TABLEAU_TO_TABLEAU srcCol srcRow dstCol =>
    if srcCol < g.tableau.length && dstCol < g.tableau.length &&
        srcRow < (g.tableau.getD srcCol default).faceUp.length then
      let srcCard := (g.tableau.getD srcCol default).faceUp.getD srcRow default
      match (g.tableau.getD dstCol default).faceUp.getLast? with
      | none =>
        -- source card can be a king moving onto a blank space
        decide (srcCard.v = 12)
      | some dstCard =>
        areDifferentColors srcCard dstCard &&
          decide ((srcCard.v : Int) = (dstCard.v : Int) - 1)
    else false
  | Move.FOUNDATION_TO_TABLEAU suitIdx dstColIdx =>
    if suitIdx < SUITS.length then
      let suit := SUITS.getD suitIdx Suit.S
      if g.foundation.get suit < 0 then false
      else if dstColIdx < g.tableau.length then
        let dstCol := g.tableau.getD dstColIdx default
        match dstCol.faceUp.getLast? with
        | none => false  -- destination must be non-empty
        | some dstCard =>
          let foundationCard : Card := ⟨(g.foundation.get suit).toNat, suit⟩
          areDifferentColors dstCard foundationCard &&
            decide ((dstCard.v : Int) = (foundationCard.v : Int) + 1)
      else false
    else false

/-- The while loop of the DRAW case of applyMove: draw up to `n` cards from the
top (end) of the hand onto the waste, one at a time. -/
def drawLoop : Nat → List Card → List Card → List Card × List Card
  | 0, hand, waste => (hand, waste)
  | n + 1, hand, waste =>
    match hand.getLast? with
    | none => (hand, waste)
    | some c => drawLoop n hand.dropLast (waste ++ [c])

/-- Replace column `i` of the tableau by `f` applied to it (JS mutates
`this.tableau[i]` in place). -/
def updateCol (t : List Column) (i : Nat) (f : Column → Column) : List Column :=
  t.set i (f (t.getD i default))

/-- Post-move flip of one column: if the face-up pile is empty and the
face-down pile is not, move the top face-down card onto the face-up pile. -/
def flipExposed (c : Column) : Column :=
  if c.faceUp.length == 0 then
    match c.faceDown.getLast? with
    | some card => ⟨c.faceDown.dropLast, c.faceUp ++ [card]⟩
    | none => c
  else c

/-- Solitaire.applyMove from src/solitaire.js.  Precondition (as in the
source): `isValid m = true`. -/
def Solitaire.applyMove (g : Solitaire) (m : Move) : Solitaire :=
  let g2 :=
    match m with
    | Move.DRAW =>
      -- move waste back to hand if hand is empty
      let g1 := if g.hand.length == 0 && g.waste.length > 0 then
          { g with hand := g.waste.reverse, waste := [] }
        else g
      let hw := drawLoop g.rules.drawSize g1.hand g1.waste
      { g1 with hand := hw.1, waste := hw.2 }
    | Move.WASTE_TO_FOUNDATION =>
      match g.waste.getLast? with
      | none => g
      | some card =>
        { g with foundation := g.foundation.write card.s (g.foundation.get card.s + 1),
                 waste := g.waste.dropLast }
    | Move.WASTE_TO_TABLEAU dstCol =>
      match g.waste.getLast? with
      | none => g
      | some srcCard =>
        { g with waste := g.waste.dropLast,
                 tableau := updateCol g.tableau dstCol
                   (fun c => { c with faceUp := c.faceUp ++ [srcCard] }) }
    | Move.TABLEAU_TO_FOUNDATION srcCol =>
      match (g.tableau.getD srcCol default).faceUp.getLast? with
      | none => g
      | some card =>
        { g with foundation := g.foundation.write card.s (g.foundation.get card.s + 1),
                 tableau := updateCol g.tableau srcCol
                   (fun c => { c with faceUp := c.faceUp.dropLast }) }
    | Move.TABLEAU_TO_TABLEAU srcCol srcRow dstCol =>
      -- the source reads the original src face-up pile for both assignments
      let srcUp := (g.tableau.getD srcCol default).faceUp
      let t1 := updateCol g.tableau dstCol
        (fun c => { c with faceUp := c.faceUp ++ srcUp.drop srcRow })
      let t2 := updateCol t1 srcCol
        (fun c => { c with faceUp := srcUp.take srcRow })
      { g with tableau := t2 }
    | Move.FOUNDATION_TO_TABLEAU suitIdx dstColIdx =>
      let suit := SUITS.getD suitIdx Suit.S
      let foundationCard : Card := ⟨(g.foundation.get suit).toNat, suit⟩
      { g with tableau := updateCol g.tableau dstColIdx
                 (fun c => { c with faceUp := c.faceUp ++ [foundationCard] }),
               foundation := g.foundation.write suit (g.foundation.get suit - 1) }
  -- flip over any cards that have been exposed in the tableau
  { g2 with tableau := g2.tableau.map flipExposed }

/-- Solitaire.isWon from src/solitaire.js: no cards in hand or waste and no
face-down cards on the tableau. -/
def Solitaire.isWon (g : Solitaire) : Bool :=
  if g.hand.length > 0 || g.waste.length > 0 then false
  else !(g.tableau.any (fun c => c.faceDown.length > 0))

/-- Solitaire.clone from src/solitaire.js: a deep copy of all mutable state.
With value semantics this rebuilds the structure field by field. -/
def Solitaire.clone (g : Solitaire) : Solitaire :=
  { rules := g.rules, foundation := g.foundation, hand := g.hand,
    waste := g.waste, tableau := g.tableau }

/-- One cell of the dealing loops of the Solitaire constructor: pop a card off
the hand and place it face-up (row = column) or face-down in `column`.  A pop
of an empty hand (impossible for a 52-card deck) is embedded as a no-op. -/
def dealStep (tab : List Column) (row column : Nat) (hand : List Card) :
    List Card × List Column :=
  match hand.getLast? with
  | none => (hand, tab)
  | some card =>
    (hand.dropLast,
      if row == column then
        updateCol tab column (fun c => { c with faceUp := c.faceUp ++ [card] })
      else
        updateCol tab column (fun c => { c with faceDown := c.faceDown ++ [card] }))

/-- Inner dealing loop: columns `cols` of row `row`. -/
def dealRowLoop (row : Nat) : List Nat → List Card → List Column → List Card × List Column
  | [], hand, tab => (hand, tab)
  | column :: rest, hand, tab =>
    let ht := dealStep tab row column hand
    dealRowLoop row rest ht.1 ht.2

/-- Outer dealing loop over rows; each row visits columns row..tableauSize-1. -/
def dealRows (n : Nat) : List Nat → List Card → List Column → List Card × List Column
  | [], hand, tab => (hand, tab)
  | row :: rest, hand, tab =>
    let ht := dealRowLoop row (List.range' row (n - row)) hand tab
    dealRows n rest ht.1 ht.2

/-- The Solitaire constructor: empty foundation, hand = deck, empty waste,
and the Klondike triangle dealt from the top of the hand. -/
def Solitaire.new (rules : Rules) (deck : List Card) : Solitaire :=
  let tab0 : List Column := List.replicate rules.tableauSize default
  let ht := dealRows rules.tableauSize (List.range rules.tableauSize) deck tab0
  { rules := rules,
    foundation := ⟨-1, -1, -1, -1⟩,
    hand := ht.1,
    waste := [],
    tableau := ht.2 }

/-- LRUCache from src/unnamed/part_001 (lrucache.js).  The ES6 Map is embedded
as the list of its keys in insertion order (oldest first); stored values are
dummies in the source. -/
structure LRUCache where
  maxSize : Nat
  cache : List Str
deriving DecidableEq, Repr

/-- LRUCache constructor. -/
def LRUCache.new (maxSize : Nat) : LRUCache := ⟨maxSize, []⟩

/-- LRUCache.has: true and refresh to most-recent on hit, false otherwise.
Returns the result together with the updated cache. -/
def LRUCache.has (c : LRUCache) (key : Str) : Bool × LRUCache :=
  if c.cache.contains key then
    (true, { c with cache := (c.cache.erase key) ++ [key] })
  else
    (false, c)

/-- LRUCache.add: refresh if present; otherwise evict the oldest key when the
map is full, then insert as newest. -/
def LRUCache.add (c : LRUCache) (key : Str) : LRUCache :=
  if c.cache.contains key then
    { c with cache := (c.cache.erase key) ++ [key] }
  else if c.cache.length ≥ c.maxSize then
    { c with cache := c.cache.tail ++ [key] }
  else
    { c with cache := c.cache ++ [key] }

/-- Size of the underlying map. -/
def LRUCache.size (c : LRUCache) : Nat := c.cache.length

/-- An operation on the LRU cache, for stating properties of operation
sequences. -/
inductive LRUOp
  | has (key : Str)
  | add (key : Str)

/-- Run a sequence of has/add operations on a cache. -/
def LRUCache.run (c : LRUCache) : List LRUOp → LRUCache
  | [] => c
  | LRUOp.has k :: rest => LRUCache.run (c.has k).2 rest
  | LRUOp.add k :: rest => LRUCache.run (c.add k) rest

/-- Concatenation of a list of strings (JS join with empty separator). -/
def joinStrs (l : List Str) : Str := l.flatten

/-- JS Array.join with a separator string. -/
def intercalateStr (sep : Str) (l : List Str) : Str := (l.intersperse sep).flatten

/-- Decimal digits of a natural number (JS number-to-string concatenation). -/
def natStr (n : Nat) : Str := Nat.toDigits 10 n

/-- Decimal string of an integer. -/
def intStr (i : Int) : Str := if i < 0 then '-' :: natStr i.natAbs else natStr i.toNat

/-- Add a card to an insertion-ordered set of cards keyed, as in the JS Set of
card strings, by the card's two-character string. -/
def addUnique (acc : List Card) (c : Card) : List Card :=
  if (acc.map Card.str).contains c.str then acc else acc ++ [c]

/-- The accessible-draw-cards for loop of Solver.getGameStateId: starting at
index `newDeck.length - drawSize` and stepping down by drawSize while the index
is nonnegative, insert the card at that index.  The source's while loop
diverges for drawSize = 0; a fuel of `newDeck.length + 1` steps covers every
terminating run (drawSize >= 1). -/
def accessibleLoop (newDeck : List Card) (d : Nat) : Nat → Int → List Card → List Card
  | 0, _, acc => acc
  | fuel + 1, i, acc =>
    if 0 ≤ i then
      accessibleLoop newDeck d fuel (i - (d : Int)) (addUnique acc (newDeck.getD i.toNat default))
    else acc

/-- The accessibleDrawCards set of Solver.getGameStateId, in insertion order:
the current waste top, then the cards reachable by repeated draws through
`reverse(waste) ++ hand`, then the bottom card of that sequence. -/
def accessibleDrawCards (g : Solitaire) : List Card :=
  let acc0 : List Card :=
    match g.waste.getLast? with
    | some c => addUnique [] c
    | none => []
  let newDeck := g.waste.reverse ++ g.hand
  let acc1 := accessibleLoop newDeck g.rules.drawSize (newDeck.length + 1)
    ((newDeck.length : Int) - (g.rules.drawSize : Int)) acc0
  if newDeck.length > 0 then addUnique acc1 (newDeck.getD 0 default) else acc1

/-- Stable insertion into a sorted list: the new element goes before the
first element it compares le to, hence before elements that compare equal. -/
def insertJS {α : Type} (le : α → α → Bool) (x : α) : List α → List α
  | [] => [x]
  | y :: ys => if le x y then x :: y :: ys else y :: insertJS le x ys

/-- Embedding of JS Array.sort with a comparator: ECMAScript sort is stable,
and every stable sort with respect to the same total preorder produces the
same output list, so a stable insertion sort is a faithful model. -/
def sortJS {α : Type} (le : α → α → Bool) : List α → List α
  | [] => []
  | x :: xs => insertJS le x (sortJS le xs)

/-- Lexicographic comparison of strings by character code, the default JS
Array.sort comparator restricted to strings. -/
def strLe : Str → Str → Bool
  | [], _ => true
  | _ :: _, [] => false
  | a :: as, b :: bs => if a < b then true else if b < a then false else strLe as bs

/-- Per-column serialization used in Solver.getGameStateId: when face-down
cards exist, column index then face-down count then the face-up cards;
otherwise just the face-up cards. -/
def tableauColId (index : Nat) (col : Column) : Str :=
  if col.faceDown.length > 0 then
    natStr index ++ natStr col.faceDown.length ++ joinStrs (col.faceUp.map Card.str)
  else joinStrs (col.faceUp.map Card.str)

/-- The `tableau.map((col, index) => ...)` of Solver.getGameStateId as an
index-threading recursion. -/
def tableauIdStrings (index : Nat) : List Column → List Str
  | [] => []
  | col :: rest => tableauColId index col :: tableauIdStrings (index + 1) rest

/-- Solver.getGameStateId from src/solve.js: canFlipDeck flag, waste top,
accessible draw cards, foundation heights, and the lexicographically sorted
per-column strings, joined with a separator. -/
def getGameStateId (g : Solitaire) (canFlipDeck : Bool) : Str :=
  intercalateStr ['|'] [
    (if canFlipDeck then ['1'] else ['0']),
    (match g.waste.getLast? with
     | some c => c.str
     | none => []),
    joinStrs ((accessibleDrawCards g).map Card.str),
    intercalateStr [','] (SUITS.map (fun s => intStr (g.foundation.get s + 1))),
    intercalateStr [','] (sortJS strLe (tableauIdStrings 0 g.tableau))
  ]

/-- The tableau cache string of Solver.getValidMoves: face-up card strings of
each column concatenated, columns joined with a bar. -/
def tableauCacheString (g : Solitaire) : Str :=
  intercalateStr ['|'] (g.tableau.map (fun c => joinStrs (c.faceUp.map Card.str)))

/-- Mutable per-search state of the Solver object: the LRU state cache, the
two move caches (ES6 Maps from cache string to move list, embedded as
association lists in insertion order), the diagnostic counters, the timeout
flag, and a clock counting node entries (the source reads the wall clock at
every entry; the clock index is what the timeout oracle is consulted with). -/
structure SolverSt where
  stateCache : LRUCache
  revealCache : List (Str × List Move)
  nonrevealCache : List (Str × List Move)
  calls : Nat
  tableauCacheHit : Nat
  tableauCacheMiss : Nat
  didTimeout : Bool
  clock : Nat
deriving Repr

/-- Fresh solver state, as set up by the Solver constructor. -/
def SolverSt.new (cacheSize : Nat) : SolverSt :=
  ⟨LRUCache.new cacheSize, [], [], 0, 0, 0, false, 0⟩

/-- ES6 Map.set on an association list: update in place if the key is present,
otherwise append as newest. -/
def mapSet (m : List (Str × List Move)) (k : Str) (v : List Move) :
    List (Str × List Move) :=
  if (m.lookup k).isSome then
    m.map (fun p => if p.1 == k then (k, v) else p)
  else m ++ [(k, v)]

/-- Solver.getAceMoves: the waste top if it is an ace, then every tableau
column whose face-up top is an ace, without consulting isValid. -/
def Solver.getAceMoves (game : Solitaire) : List Move :=
  (match game.waste.getLast? with
   | some c => if c.v == 0 then [Move.WASTE_TO_FOUNDATION] else []
   | none => []) ++
  ((List.range game.tableau.length).filterMap (fun i =>
    match (game.tableau.getD i default).faceUp.getLast? with
    | some c => if c.v == 0 then some (Move.TABLEAU_TO_FOUNDATION i) else none
    | none => none))

/-- Solver.getMovesToFoundation: non-ace waste top and non-ace tableau tops to
the foundation, filtered by isValid. -/
def Solver.getMovesToFoundation (game : Solitaire) : List Move :=
  (match game.waste.getLast? with
   | some c =>
     if c.v != 0 && game.isValid Move.WASTE_TO_FOUNDATION then
       [Move.WASTE_TO_FOUNDATION]
     else []
   | none => []) ++
  ((List.range game.tableau.length).filterMap (fun i =>
    match (game.tableau.getD i default).faceUp.getLast? with
    | some c =>
      if c.v != 0 && game.isValid (Move.TABLEAU_TO_FOUNDATION i) then
        some (Move.TABLEAU_TO_FOUNDATION i)
      else none
    | none => none))

/-- Solver.hasEmptySpace: does any column have an empty face-up pile. -/
def Solver.hasEmptySpace (tableau : List Column) : Bool :=
  tableau.any (fun c => c.faceUp.length == 0)

/-- The comparator passed to sort in Solver.getCardRevealingMoves, returning a
signed number as in JS. -/
def Solver.revealCmp (game : Solitaire) (first second : Move) : Int :=
  let needsKingSpace := !Solver.hasEmptySpace game.tableau
  let firstFaceDownCount : Int :=
    ((game.tableau.getD (first.extras.getD 0 0) default).faceDown.length : Int)
  let secondFaceDownCount : Int :=
    ((game.tableau.getD (second.extras.getD 0 0) default).faceDown.length : Int)
  if firstFaceDownCount != secondFaceDownCount then
    if needsKingSpace then firstFaceDownCount - secondFaceDownCount
    else secondFaceDownCount - firstFaceDownCount
  else (first.extras.getD 0 0 : Int) - (second.extras.getD 0 0 : Int)

/-- Boolean order underlying the comparator (comparator value at most 0). -/
def Solver.revealLe (game : Solitaire) (first second : Move) : Bool :=
  Solver.revealCmp game first second ≤ 0

/-- The move generation and sort of Solver.getCardRevealingMoves (the cache
aside): every whole-stack tableau-to-tableau move with distinct columns and a
non-empty source face-up pile that isValid accepts, sorted by the comparator. -/
def Solver.getCardRevealingMovesList (game : Solitaire) : List Move :=
  let ret := (List.range game.tableau.length).flatMap (fun i =>
    if (game.tableau.getD i default).faceUp.length > 0 then
      (List.range game.tableau.length).filterMap (fun j =>
        if i == j then none
        else if game.isValid (Move.TABLEAU_TO_TABLEAU i 0 j) then
          some (Move.TABLEAU_TO_TABLEAU i 0 j)
        else none)
    else [])
  sortJS (Solver.revealLe game) ret

/-- Solver.getCardRevealingMoves with its per-solver cache keyed by the
tableau cache string. -/
def Solver.getCardRevealingMoves (st : SolverSt) (game : Solitaire) (key : Str) :
    List Move × SolverSt :=
  match st.revealCache.lookup key with
  | some ms => (ms, { st with tableauCacheHit := st.tableauCacheHit + 1 })
  | none =>
    let ret := Solver.getCardRevealingMovesList game
    (ret, { st with tableauCacheMiss := st.tableauCacheMiss + 1,
                    revealCache := mapSet st.revealCache key ret })

/-- Solver.getMovesWasteToTableau: waste to each column, filtered by isValid. -/
def Solver.getMovesWasteToTableau (game : Solitaire) : List Move :=
  (List.range game.tableau.length).filterMap (fun i =>
    if game.isValid (Move.WASTE_TO_TABLEAU i) then some (Move.WASTE_TO_TABLEAU i)
    else none)

/-- Solver.getDrawMove: the draw move if isValid accepts it. -/
def Solver.getDrawMove (game : Solitaire) : List Move :=
  if game.isValid Move.DRAW then [Move.DRAW] else []

/-- The move generation of Solver.getMovesTableauToTableau (the cache aside):
partial-stack moves, source row at least 1. -/
def Solver.getMovesTableauToTableauList (game : Solitaire) : List Move :=
  (List.range game.tableau.length).flatMap (fun i =>
    let srcFaceUp := (game.tableau.getD i default).faceUp
    (List.range' 1 (srcFaceUp.length - 1)).flatMap (fun j =>
      (List.range game.tableau.length).filterMap (fun k =>
        if i == k then none
        else if game.isValid (Move.TABLEAU_TO_TABLEAU i j k) then
          some (Move.TABLEAU_TO_TABLEAU i j k)
        else none)))

/-- Solver.getMovesTableauToTableau with its cache.  The miss branch of the
source reads the miss counter without incrementing it (a statement with no
effect), which is embedded faithfully: only the hit counter moves. -/
def Solver.getMovesTableauToTableau (st : SolverSt) (game : Solitaire) (key : Str) :
    List Move × SolverSt :=
  match st.nonrevealCache.lookup key with
  | some ms => (ms, { st with tableauCacheHit := st.tableauCacheHit + 1 })
  | none =>
    let ret := Solver.getMovesTableauToTableauList game
    (ret, { st with nonrevealCache := mapSet st.nonrevealCache key ret })

/-- Solver.getValidMoves: the six move groups concatenated in priority order,
threading the solver state through the two cached generators. -/
def Solver.getValidMoves (st : SolverSt) (game : Solitaire) : List Move × SolverSt :=
  let key := tableauCacheString game
  let r1 := Solver.getCardRevealingMoves st game key
  let r2 := Solver.getMovesTableauToTableau r1.2 game key
  (Solver.getAceMoves game ++ Solver.getMovesToFoundation game ++ r1.1 ++
    Solver.getMovesWasteToTableau game ++ Solver.getDrawMove game ++ r2.1, r2.2)

/-- Add a stack string to seenCardStacks (ES6 Set.add: no-op when present). -/
def addStack (seen : List Str) (s : Str) : List Str :=
  if seen.contains s then seen else seen ++ [s]

/-- Solver.maybeApplyMove from src/solve.js: the draw-cycle guard, clone and
apply, the stack-loop guard for tableau-to-tableau moves, the recursive call,
and the undo of seenCardStacks on failure.  The source is corecursive with
getWinningMoves; here the recursive call is abstracted as `rec`, and
Solver.maybeApplyMove below ties the knot.  Returns the winning moves (or
none), the seenCardStacks set, and the solver state. -/
def Solver.maybeApplyMoveCore
    (rec : Solitaire → List Str → Bool → Nat → SolverSt →
      Option (List Move) × List Str × SolverSt)
    (move : Move) (game : Solitaire) (seenCardStacks : List Str)
    (canFlipDeck : Bool) (depth : Nat) (st : SolverSt) :
    Option (List Move) × List Str × SolverSt :=
  match move with
  | Move.DRAW =>
    if game.hand.length == 0 then
      if canFlipDeck then
        rec ((game.clone).applyMove move) seenCardStacks false (depth + 1) st
      else (none, seenCardStacks, st)
    else
      rec ((game.clone).applyMove move) seenCardStacks canFlipDeck (depth + 1) st
  | Move.WASTE_TO_FOUNDATION =>
    rec ((game.clone).applyMove move) seenCardStacks true (depth + 1) st
  | Move.WASTE_TO_TABLEAU _ =>
    rec ((game.clone).applyMove move) seenCardStacks true (depth + 1) st
  | Move.TABLEAU_TO_TABLEAU srcCol _ dstCol =>
    let clonedGame := (game.clone).applyMove move
    let newSrcStack := joinStrs ((clonedGame.tableau.getD srcCol default).faceUp.map Card.str)
    let newDstStack := joinStrs ((clonedGame.tableau.getD dstCol default).faceUp.map Card.str)
    if seenCardStacks.contains newSrcStack && seenCardStacks.contains newDstStack then
      (none, seenCardStacks, st)
    else
      let seen1 := addStack (addStack seenCardStacks newSrcStack) newDstStack
      let r := rec clonedGame seen1 canFlipDeck (depth + 1) st
      match r with
      | (some winningMoves, seen2, st2) => (some winningMoves, seen2, st2)
      | (none, seen2, st2) =>
        (none, (seen2.erase newSrcStack).erase newDstStack, st2)
  | _ =>
    rec ((game.clone).applyMove move) seenCardStacks canFlipDeck (depth + 1) st

/-- The for loop over candidate moves in Solver.getWinningMoves: try each move
in order, prepending the successful move to the returned list. -/
def Solver.tryMoves
    (rec : Solitaire → List Str → Bool → Nat → SolverSt →
      Option (List Move) × List Str × SolverSt) :
    List Move → Solitaire → List Str → Bool → Nat → SolverSt →
      Option (List Move) × List Str × SolverSt
  | [], _, seenCardStacks, _, _, st => (none, seenCardStacks, st)
  | move :: rest, game, seenCardStacks, canFlipDeck, depth, st =>
    match Solver.maybeApplyMoveCore rec move game seenCardStacks canFlipDeck depth st with
    | (some remainingMoves, seen2, st2) => (some (move :: remainingMoves), seen2, st2)
    | (none, seen2, st2) =>
      Solver.tryMoves rec rest game seen2 canFlipDeck depth st2

/-- Solver.getWinningMoves from src/solve.js.  The wall-clock timeout check is
embedded as an oracle consulted on the clock of node entries; the recursion is
bounded by explicit fuel (the source relies on the state cache for
termination), with fuel exhaustion returning failure. -/
def Solver.getWinningMoves (oracle : Nat → Bool) : Nat → Solitaire → List Str →
    Bool → Nat → SolverSt → Option (List Move) × List Str × SolverSt
  | 0, _, seenCardStacks, _, _, st => (none, seenCardStacks, st)
  | fuel + 1, game, seenCardStacks, canFlipDeck, depth, st0 =>
    let st := { st0 with clock := st0.clock + 1 }
    if oracle st.clock then
      (none, seenCardStacks, { st with didTimeout := true })
    else if game.isWon then
      (some [], seenCardStacks, st)
    else
      let gameStateId := getGameStateId game canFlipDeck
      let hs := st.stateCache.has gameStateId
      if hs.1 then
        (none, seenCardStacks, { st with stateCache := hs.2 })
      else
        let st := { st with stateCache := hs.2.add gameStateId }
        let st := { st with calls := st.calls + 1 }
        let mv := Solver.getValidMoves st game
        Solver.tryMoves (fun g2 s2 c2 d2 stx =>
            Solver.getWinningMoves oracle fuel g2 s2 c2 d2 stx)
          mv.1 game seenCardStacks canFlipDeck depth mv.2

/-- Solver.maybeApplyMove with the recursive call tied to getWinningMoves at
the given fuel, matching the source's corecursion. -/
def Solver.maybeApplyMove (oracle : Nat → Bool) (fuel : Nat) :
    Move → Solitaire → List Str → Bool → Nat → SolverSt →
      Option (List Move) × List Str × SolverSt :=
  Solver.maybeApplyMoveCore (fun g2 s2 c2 d2 stx =>
    Solver.getWinningMoves oracle fuel g2 s2 c2 d2 stx)

/-! ## Invariants: face-up stack shape and card conservation -/

/-- Card `c` may sit immediately on card `d`: one lower in value and of the
opposite color. -/
def stacksOn (c d : Card) : Bool := (c.v + 1 == d.v) && areDifferentColors c d

/-- A face-up pile (bottom first) descends by one in value with alternating
colors. -/
def goodStack : List Card → Bool
  | [] => true
  | [_] => true
  | d :: c :: rest => stacksOn c d && goodStack (c :: rest)

/-- Multiset of cards in a column. -/
def colMS (c : Column) : Multiset Card :=
  (c.faceDown : Multiset Card) + (c.faceUp : Multiset Card)

/-- Multiset of cards on the tableau. -/
def tabMS (t : List Column) : Multiset Card := (t.map colMS).sum

/-- Cards implied by a foundation entry: values 0..f of the suit. -/
def foundationCards (s : Suit) (f : Int) : List Card :=
  (List.range (f + 1).toNat).map (fun v => ⟨v, s⟩)

/-- Multiset of cards implied by the foundation. -/
def foundMS (fd : Foundation) : Multiset Card :=
  (SUITS.map (fun s => ((foundationCards s (fd.get s) : List Card) : Multiset Card))).sum

/-- Multiset of all cards of a game state. -/
def cardsMS (g : Solitaire) : Multiset Card :=
  (g.hand : Multiset Card) + (g.waste : Multiset Card) + tabMS g.tableau + foundMS g.foundation

/-- Invariant (1): the cards of the state form exactly the initial 52-card
deck. -/
def Conserved (g : Solitaire) : Prop := cardsMS g = (SORTED_DECK : Multiset Card)

/-- Invariant (2): every face-up pile descends by one with alternating
colors. -/
def GoodStacks (g : Solitaire) : Prop := ∀ col ∈ g.tableau, goodStack col.faceUp = true

instance (g : Solitaire) : Decidable (Conserved g) := by
  unfold Conserved
  infer_instance

instance (g : Solitaire) : Decidable (GoodStacks g) := by
  unfold GoodStacks
  exact List.decidableBAll _ _

/-- Full state invariant used by the solver soundness proofs: conservation,
stack shape, and foundation entries at least -1. -/
def WellFormed (g : Solitaire) : Prop :=
  Conserved g ∧ GoodStacks g ∧ ∀ s, -1 ≤ g.foundation.get s

/-- A state reachable from a valid deal by a sequence of legal moves. -/
inductive Reachable : Solitaire → Prop
  | init (rules : Rules) (deck : List Card) (h : deck.Perm SORTED_DECK) :
      Reachable (Solitaire.new rules deck)
  | step {g : Solitaire} (m : Move) (hg : Reachable g) (hv : g.isValid m = true) :
      Reachable (g.applyMove m)

/-- A game state violating the face-up stack invariant: one column whose
face-up pile is 2S then 3H (ascending). -/
def gameC8 : Solitaire :=
  { rules := ⟨3, 7⟩, foundation := ⟨-1, -1, -1, -1⟩, hand := [], waste := [],
    tableau := [⟨[], [⟨1, Suit.S⟩, ⟨2, Suit.H⟩]⟩] }

/-- A game state with a well-formed two-card stack for the C8 witness. -/
def gameC8w : Solitaire :=
  { rules := ⟨3, 7⟩, foundation := ⟨-1, -1, -1, -1⟩, hand := [], waste := [],
    tableau := [⟨[], [⟨2, Suit.H⟩, ⟨1, Suit.S⟩]⟩] }

/-- Counterexample game states for claim C2: identical except that the two
tableau columns (one of which has a face-down card) are swapped. -/
def gameC2a : Solitaire :=
  { rules := ⟨3, 7⟩, foundation := ⟨-1, -1, -1, -1⟩, hand := [], waste := [],
    tableau := [⟨[⟨0, Suit.S⟩], []⟩, ⟨[], []⟩] }

/-- The same state with the tableau columns in the other order. -/
def gameC2b : Solitaire :=
  { rules := ⟨3, 7⟩, foundation := ⟨-1, -1, -1, -1⟩, hand := [], waste := [],
    tableau := [⟨[], []⟩, ⟨[⟨0, Suit.S⟩], []⟩] }

/-- A game state with empty face-down piles for the C2 witness. -/
def gameC2w : Solitaire :=
  { rules := ⟨3, 7⟩, foundation := ⟨-1, -1, -1, -1⟩, hand := [], waste := [],
    tableau := [⟨[], [⟨12, Suit.S⟩]⟩, ⟨[], []⟩] }

/-- The permuted tableau used by the C2 witness. -/
def gameC2wTab : List Column := [⟨[], []⟩, ⟨[], [⟨12, Suit.S⟩]⟩]

/-- Witness game and state for the C4 and C5 witnesses: a one-column game. -/
def gameC45 : Solitaire :=
  { rules := ⟨3, 1⟩, foundation := ⟨-1, -1, -1, -1⟩, hand := [], waste := [],
    tableau := [⟨[], []⟩] }

/-- A three-column position exercising claim C6: no empty column, so the move
from the source with fewer face-down cards is listed first. -/
def gameC6 : Solitaire :=
  { rules := ⟨3, 1⟩, foundation := ⟨-1, -1, -1, -1⟩, hand := [], waste := [],
    tableau := [⟨[⟨0, Suit.S⟩, ⟨1, Suit.S⟩], [⟨5, Suit.H⟩]⟩,
                ⟨[⟨2, Suit.S⟩], [⟨5, Suit.D⟩]⟩,
                ⟨[], [⟨6, Suit.S⟩]⟩] }

/-- Replaying a move list from a state: every move valid where replayed, and
the final state won. -/
def ReplayWinning (g : Solitaire) : List Move → Bool
  | [] => g.isWon
  | m :: ms => g.isValid m && ReplayWinning (g.applyMove m) ms

/-- Every entry of a tableau move cache is valid in every well-formed game
whose tableau cache string matches the entry's key. -/
def CacheOK (cache : List (Str × List Move)) : Prop :=
  ∀ k ms, cache.lookup k = some ms → ∀ g : Solitaire, WellFormed g →
    tableauCacheString g = k → ∀ m ∈ ms, g.isValid m = true

/-- Both tableau move caches of a solver state satisfy CacheOK. -/
def StOK (st : SolverSt) : Prop :=
  CacheOK st.revealCache ∧ CacheOK st.nonrevealCache

theorem goodStack_of_short {l : List Card} (h : l.length ≤ 1) : goodStack l = true := by
  match l with
  | [] => rfl
  | [_] => rfl
  | _ :: _ :: _ => simp at h

theorem goodStack_append_iff (l1 l2 : List Card) :
    goodStack (l1 ++ l2) = true ↔
      goodStack l1 = true ∧ goodStack l2 = true ∧
        (∀ d c, l1.getLast? = some d → l2.head? = some c → stacksOn c d = true) := by
  induction l1 with
  | nil => simp [goodStack]
  | cons a t ih =>
    match t, l2 with
    | [], [] => simp [goodStack]
    | [], c :: t2 =>
      show (stacksOn c a && goodStack (c :: t2)) = true ↔ _
      rw [Bool.and_eq_true]
      constructor
      · rintro ⟨h1, h2⟩
        refine ⟨rfl, h2, ?_⟩
        rintro d c2 hd hc
        simp only [List.getLast?_singleton, Option.some.injEq] at hd
        simp only [List.head?_cons, Option.some.injEq] at hc
        rw [← hd, ← hc]
        exact h1
      · rintro ⟨-, h2, h3⟩
        exact ⟨h3 a c (by simp) (by simp), h2⟩
    | b :: t1, l2 =>
      show (stacksOn b a && goodStack (b :: t1 ++ l2)) = true ↔ _
      have hgs : goodStack (a :: b :: t1) = (stacksOn b a && goodStack (b :: t1)) := rfl
      rw [Bool.and_eq_true, ih, hgs, Bool.and_eq_true]
      have hlast : (a :: b :: t1).getLast? = (b :: t1).getLast? := by
        simp [List.getLast?_cons_cons]
      constructor
      · rintro ⟨h1, h2, h3, h4⟩
        refine ⟨⟨h1, h2⟩, h3, ?_⟩
        intro d c hd hc
        exact h4 d c (by rw [hlast] at hd; exact hd) hc
      · rintro ⟨⟨h1, h2⟩, h3, h4⟩
        refine ⟨h1, h2, h3, ?_⟩
        intro d c hd hc
        exact h4 d c (by rw [hlast]; exact hd) hc

theorem goodStack_take {l : List Card} (h : goodStack l = true) (n : Nat) :
    goodStack (l.take n) = true := by
  have := (goodStack_append_iff (l.take n) (l.drop n)).1 (by rw [List.take_append_drop]; exact h)
  exact this.1

theorem goodStack_drop {l : List Card} (h : goodStack l = true) (n : Nat) :
    goodStack (l.drop n) = true := by
  have := (goodStack_append_iff (l.take n) (l.drop n)).1 (by rw [List.take_append_drop]; exact h)
  exact this.2.1

theorem goodStack_dropLast {l : List Card} (h : goodStack l = true) :
    goodStack l.dropLast = true := by
  rw [List.dropLast_eq_take]
  exact goodStack_take h _

theorem goodStack_push {l : List Card} {c : Card} (h : goodStack l = true)
    (hj : ∀ d, l.getLast? = some d → stacksOn c d = true) :
    goodStack (l ++ [c]) = true := by
  rw [goodStack_append_iff]
  refine ⟨h, rfl, ?_⟩
  intro d c2 hd hc
  simp only [List.head?_cons, Option.some.injEq] at hc
  rw [← hc]
  exact hj d hd

theorem goodStack_append {l1 l2 : List Card} (h1 : goodStack l1 = true)
    (h2 : goodStack l2 = true)
    (hj : ∀ d c, l1.getLast? = some d → l2.head? = some c → stacksOn c d = true) :
    goodStack (l1 ++ l2) = true := by
  rw [goodStack_append_iff]
  exact ⟨h1, h2, hj⟩

theorem goodStack_v_add {l : List Card} (h : goodStack l = true) :
    ∀ i j, i ≤ j → j < l.length →
      (l.getD i default).v = (l.getD j default).v + (j - i) := by
  induction l with
  | nil => intro i j _ hj; simp at hj
  | cons a t ih =>
    intro i j hij hj
    match t with
    | [] =>
      match i, j with
      | 0, 0 => simp
      | i + 1, 0 => omega
      | _, j + 1 => simp at hj
    | b :: t2 =>
      have hgs : goodStack (a :: b :: t2) = (stacksOn b a && goodStack (b :: t2)) := rfl
      rw [hgs, Bool.and_eq_true] at h
      match i, j with
      | 0, 0 => simp
      | 0, j + 1 =>
        have hstep : (b :: t2).getD 0 default = b := rfl
        have h0 := ih h.2 0 j (Nat.zero_le _) (by simpa using hj)
        have hab : b.v + 1 = a.v := by
          have := h.1
          simp only [stacksOn, Bool.and_eq_true, beq_iff_eq] at this
          exact this.1
        show a.v = ((b :: t2).getD j default).v + (j + 1 - 0)
        rw [hstep] at h0
        omega
      | i + 1, j + 1 =>
        have := ih h.2 i j (by omega) (by simpa using hj)
        show ((b :: t2).getD i default).v = ((b :: t2).getD j default).v + (j + 1 - (i + 1))
        omega

theorem getLast?_eq_getD {l : List Card} (h : l ≠ []) :
    l.getLast? = some (l.getD (l.length - 1) default) := by
  rw [List.getLast?_eq_getElem?, List.getElem?_eq_getElem (by
    cases l with
    | nil => simp at h
    | cons a t => simp)]
  congr 1
  rw [List.getD_eq_getElem l default (by
    cases l with
    | nil => simp at h
    | cons a t => simp)]

/-- Shared helper for claim C8 and the conservation proof: on a game whose
face-up piles all satisfy the stack invariant, a tableau-to-tableau move from a
column to itself is never valid. -/
theorem t2t_self_invalid {g : Solitaire}
    (hg : ∀ col ∈ g.tableau, goodStack col.faceUp = true) (s r : Nat) :
    g.isValid (Move.TABLEAU_TO_TABLEAU s r s) = false := by
  unfold Solitaire.isValid
  by_cases hr : s < g.tableau.length && s < g.tableau.length &&
      r < (g.tableau.getD s default).faceUp.length
  swap
  · simp only [hr, Bool.false_eq_true, if_neg, reduceIte]
  simp only [hr, if_pos]
  simp only [Bool.and_eq_true, decide_eq_true_eq] at hr
  obtain ⟨⟨hs, -⟩, hrlen⟩ := hr
  set up := (g.tableau.getD s default).faceUp with hup
  have hcol : g.tableau.getD s default ∈ g.tableau := by
    rw [List.getD_eq_getElem _ _ hs]
    exact List.getElem_mem _
  have hgood : goodStack up = true := hg _ hcol
  have hne : up ≠ [] := by
    intro hc
    rw [hc] at hrlen
    simp at hrlen
  rw [getLast?_eq_getD hne]
  have hval := goodStack_v_add hgood r (up.length - 1) (by omega) (by omega)
  set srcCard := up.getD r default
  set dstCard := up.getD (up.length - 1) default
  have : ¬ ((srcCard.v : Int) = (dstCard.v : Int) - 1) := by omega
  simp [this]

theorem getD_set_ne {α : Type} (t : List α) (i j : Nat) (x d : α) (h : i ≠ j) :
    (t.set i x).getD j d = t.getD j d := by
  rw [List.getD_eq_getElem?_getD, List.getD_eq_getElem?_getD, List.getElem?_set_ne h]

theorem colMS_flipExposed (c : Column) : colMS (flipExposed c) = colMS c := by
  unfold flipExposed
  by_cases h : c.faceUp.length == 0
  · simp only [h, if_pos]
    match hfd : c.faceDown.getLast? with
    | none => rfl
    | some card =>
      have hne : c.faceDown ≠ [] := by
        intro hc
        rw [hc] at hfd
        simp at hfd
      have hsplit : c.faceDown.dropLast ++ [card] = c.faceDown := by
        have := List.getLast?_eq_getLast c.faceDown hne
        rw [this] at hfd
        have hcard : c.faceDown.getLast hne = card := by
          simpa using hfd
        rw [← hcard]
        exact List.dropLast_append_getLast hne
      simp only [colMS]
      conv_rhs => rw [← hsplit]
      simp only [← Multiset.coe_add]
      abel
  · simp only [h]
    rfl

theorem tabMS_map_flip (t : List Column) : tabMS (t.map flipExposed) = tabMS t := by
  unfold tabMS
  rw [List.map_map]
  congr 1
  apply List.map_congr_left
  intro c _
  exact colMS_flipExposed c

theorem sum_map_set {α M : Type} [AddCommMonoid M] (F : α → M) (d : α) :
    ∀ (l : List α) (i : Nat) (x : α), i < l.length →
      ((l.set i x).map F).sum + F (l.getD i d) = (l.map F).sum + F x
  | a :: t, 0, x, _ => by
    simp only [List.set, List.map_cons, List.sum_cons, List.getD_cons_zero]
    abel
  | a :: t, i + 1, x, h => by
    have ih := sum_map_set F d t i x (by simpa using h)
    simp only [List.set, List.map_cons, List.sum_cons, List.getD_cons_succ]
    rw [add_assoc, add_assoc, ih]

theorem tabMS_updateCol (t : List Column) (i : Nat) (f : Column → Column)
    (h : i < t.length) :
    tabMS (updateCol t i f) + colMS (t.getD i default) =
      tabMS t + colMS (f (t.getD i default)) :=
  sum_map_set colMS default t i _ h

theorem foundationCards_split (s : Suit) (f : Int) (h : 0 ≤ f) :
    foundationCards s f = foundationCards s (f - 1) ++ [⟨f.toNat, s⟩] := by
  unfold foundationCards
  have h1 : (f + 1).toNat = (f - 1 + 1).toNat + 1 := by omega
  rw [h1, List.range_succ, List.map_append]
  have h2 : (f - 1 + 1).toNat = f.toNat := by omega
  rw [h2]
  simp

theorem foundMS_write (fd : Foundation) (s : Suit) (x : Int) :
    foundMS (fd.write s x) + (foundationCards s (fd.get s) : Multiset Card) =
      foundMS fd + (foundationCards s x : Multiset Card) := by
  cases s <;>
    simp only [foundMS, SUITS, Foundation.write, Foundation.get, List.map_cons,
      List.map_nil, List.sum_cons, List.sum_nil] <;>
    abel

theorem drawLoop_ms : ∀ (n : Nat) (h w : List Card),
    ((drawLoop n h w).1 : Multiset Card) + ((drawLoop n h w).2 : Multiset Card) =
      (h : Multiset Card) + (w : Multiset Card)
  | 0, h, w => rfl
  | n + 1, h, w => by
    unfold drawLoop
    match hl : h.getLast? with
    | none => rfl
    | some c =>
      have hne : h ≠ [] := by
        intro hc
        rw [hc] at hl
        simp at hl
      have hsplit : h.dropLast ++ [c] = h := by
        have := List.getLast?_eq_getLast h hne
        rw [this] at hl
        have hcard : h.getLast hne = c := by simpa using hl
        rw [← hcard]
        exact List.dropLast_append_getLast hne
      rw [drawLoop_ms n h.dropLast (w ++ [c])]
      conv_rhs => rw [← hsplit]
      simp only [← Multiset.coe_add]
      abel

theorem dropLast_append_of_getLast {l : List Card} {c : Card}
    (h : l.getLast? = some c) : l.dropLast ++ [c] = l := by
  have hne : l ≠ [] := by
    intro hc
    rw [hc] at h
    simp at h
  have := List.getLast?_eq_getLast l hne
  rw [this] at h
  have hcard : l.getLast hne = c := by simpa using h
  rw [← hcard]
  exact List.dropLast_append_getLast hne

theorem coe_split_getLast {l : List Card} {c : Card} (h : l.getLast? = some c) :
    (l : Multiset Card) = (l.dropLast : Multiset Card) + (([c] : List Card) : Multiset Card) := by
  conv_lhs => rw [← dropLast_append_of_getLast h]
  rw [Multiset.coe_add]

theorem insertJS_perm {α : Type} (le : α → α → Bool) (x : α) :
    ∀ l : List α, (insertJS le x l).Perm (x :: l)
  | [] => List.Perm.refl _
  | y :: ys => by
    unfold insertJS
    by_cases h : le x y = true
    · rw [if_pos h]
    · rw [if_neg h]
      exact ((insertJS_perm le x ys).cons y).trans (List.Perm.swap x y ys)

theorem sortJS_perm {α : Type} (le : α → α → Bool) :
    ∀ l : List α, (sortJS le l).Perm l
  | [] => List.Perm.refl _
  | x :: xs => by
    unfold sortJS
    exact (insertJS_perm le x (sortJS le xs)).trans ((sortJS_perm le xs).cons x)

theorem insertJS_sorted {α : Type} {le : α → α → Bool}
    (htot : ∀ a b, (le a b || le b a) = true)
    (htrans : ∀ a b c, le a b = true → le b c = true → le a c = true) (x : α) :
    ∀ {l : List α}, l.Pairwise (fun a b => le a b = true) →
      (insertJS le x l).Pairwise (fun a b => le a b = true)
  | [], _ => by simp [insertJS]
  | y :: ys, h => by
    unfold insertJS
    rw [List.pairwise_cons] at h
    by_cases hxy : le x y = true
    · rw [if_pos hxy]
      rw [List.pairwise_cons]
      refine ⟨?_, List.pairwise_cons.2 h⟩
      intro z hz
      rcases List.mem_cons.1 hz with rfl | hz
      · exact hxy
      · exact htrans x y z hxy (h.1 z hz)
    · rw [if_neg hxy]
      have hyx : le y x = true := by
        have := htot x y
        rw [Bool.or_eq_true] at this
        rcases this with h1 | h1
        · exact absurd h1 hxy
        · exact h1
      rw [List.pairwise_cons]
      constructor
      · intro z hz
        have := (insertJS_perm le x ys).mem_iff.1 hz
        rcases List.mem_cons.1 this with rfl | hz2
        · exact hyx
        · exact h.1 z hz2
      · exact insertJS_sorted htot htrans x h.2

theorem sortJS_sorted {α : Type} {le : α → α → Bool}
    (htot : ∀ a b, (le a b || le b a) = true)
    (htrans : ∀ a b c, le a b = true → le b c = true → le a c = true) :
    ∀ l : List α, (sortJS le l).Pairwise (fun a b => le a b = true)
  | [] => by simp [sortJS]
  | x :: xs => by
    unfold sortJS
    exact insertJS_sorted htot htrans x (sortJS_sorted htot htrans xs)

theorem areDifferentColors_comm (a b : Card) :
    areDifferentColors a b = areDifferentColors b a := by
  cases h1 : isBlack a <;> cases h2 : isBlack b <;>
    simp [areDifferentColors, h1, h2]

theorem stacksOn_of_conds {c d : Card} (h1 : areDifferentColors c d = true)
    (h2 : (c.v : Int) = (d.v : Int) - 1) : stacksOn c d = true := by
  simp only [stacksOn, Bool.and_eq_true, beq_iff_eq]
  exact ⟨by omega, h1⟩

theorem flipExposed_goodStack {c : Column} (h : goodStack c.faceUp = true) :
    goodStack (flipExposed c).faceUp = true := by
  unfold flipExposed
  by_cases hl : c.faceUp.length == 0
  · simp only [hl, if_pos]
    match c.faceDown.getLast? with
    | none => exact h
    | some card =>
      have : c.faceUp = [] := List.eq_nil_of_length_eq_zero (by simpa using hl)
      rw [this]
      exact goodStack_of_short (by simp)
  · simp only [hl]
    exact h

theorem goodStacks_map_flip {t : List Column}
    (h : ∀ col ∈ t, goodStack col.faceUp = true) :
    ∀ col ∈ t.map flipExposed, goodStack col.faceUp = true := by
  intro col hc
  rw [List.mem_map] at hc
  obtain ⟨c, hc, rfl⟩ := hc
  exact flipExposed_goodStack (h c hc)

theorem goodStacks_set {t : List Column} {i : Nat} {c : Column}
    (h : ∀ col ∈ t, goodStack col.faceUp = true) (hc : goodStack c.faceUp = true) :
    ∀ col ∈ t.set i c, goodStack col.faceUp = true := by
  intro col hcol
  rcases List.mem_or_eq_of_mem_set hcol with hin | heq
  · exact h col hin
  · rw [heq]; exact hc

theorem getD_mem_of_lt {t : List Column} {i : Nat} (h : i < t.length) :
    t.getD i default ∈ t := by
  rw [List.getD_eq_getElem _ _ h]
  exact List.getElem_mem h

/-- The post-move flip does not change the multiset of cards. -/
theorem cardsMS_flip (r : Rules) (fd : Foundation) (h w : List Card) (t : List Column) :
    cardsMS ⟨r, fd, h, w, t.map flipExposed⟩ = cardsMS ⟨r, fd, h, w, t⟩ := by
  simp only [cardsMS]
  rw [tabMS_map_flip]

theorem coe_take_add_drop (l : List Card) (n : Nat) :
    (l.take n : Multiset Card) + (l.drop n : Multiset Card) = (l : Multiset Card) := by
  rw [Multiset.coe_add, List.take_append_drop]

/-- Invariant preservation for a valid TABLEAU_TO_TABLEAU move. -/
theorem t2t_invariants {g : Solitaire} {srcCol srcRow dstCol : Nat}
    (hgs : GoodStacks g)
    (hv : g.isValid (Move.TABLEAU_TO_TABLEAU srcCol srcRow dstCol) = true) :
    cardsMS (g.applyMove (Move.TABLEAU_TO_TABLEAU srcCol srcRow dstCol)) = cardsMS g ∧
      GoodStacks (g.applyMove (Move.TABLEAU_TO_TABLEAU srcCol srcRow dstCol)) := by
  have hne : dstCol ≠ srcCol := by
    intro hc
    rw [hc] at hv
    rw [t2t_self_invalid hgs srcCol srcRow] at hv
    exact absurd hv (by simp)
  simp only [Solitaire.isValid] at hv
  by_cases hrange : srcCol < g.tableau.length && dstCol < g.tableau.length &&
      srcRow < (g.tableau.getD srcCol default).faceUp.length
  swap
  · rw [if_neg (by simpa using hrange)] at hv; simp at hv
  rw [if_pos (by simpa using hrange)] at hv
  simp only [Bool.and_eq_true, decide_eq_true_eq] at hrange
  obtain ⟨⟨hs, hd⟩, hr⟩ := hrange
  set colS := g.tableau.getD srcCol default with hcolS
  set colD := g.tableau.getD dstCol default with hcolD
  set srcCard := colS.faceUp.getD srcRow default with hsrcCard
  have hgoodS : goodStack colS.faceUp = true := hgs _ (getD_mem_of_lt hs)
  have hgoodD : goodStack colD.faceUp = true := hgs _ (getD_mem_of_lt hd)
  -- the two updated columns
  have hgoodD2 : goodStack (colD.faceUp ++ colS.faceUp.drop srcRow) = true := by
    match hl : colD.faceUp.getLast? with
    | none =>
      have : colD.faceUp = [] := by
        cases hfu : colD.faceUp with
        | nil => rfl
        | cons a t => rw [hfu] at hl; simp [List.getLast?] at hl
      rw [this, List.nil_append]
      exact goodStack_drop hgoodS srcRow
    | some dstCard =>
      rw [hl] at hv
      simp only [Bool.and_eq_true, decide_eq_true_eq] at hv
      apply goodStack_append hgoodD (goodStack_drop hgoodS srcRow)
      intro d c hd2 hc2
      rw [hl] at hd2
      rw [List.head?_drop, List.getElem?_eq_getElem hr] at hc2
      have hcs : c = srcCard := by
        have : colS.faceUp.getD srcRow default = colS.faceUp[srcRow] :=
          List.getD_eq_getElem _ _ hr
        simp only [Option.some.injEq] at hc2
        rw [hsrcCard, this, ← hc2]
      have hds : d = dstCard := by simpa using hd2.symm
      rw [hcs, hds]
      exact stacksOn_of_conds hv.1 hv.2
  have hgoodS2 : goodStack (colS.faceUp.take srcRow) = true := goodStack_take hgoodS _
  -- conservation
  simp only [Solitaire.applyMove]
  rw [cardsMS_flip]
  have E1 := tabMS_updateCol g.tableau dstCol
    (fun c => { c with faceUp := c.faceUp ++ colS.faceUp.drop srcRow }) hd
  have hlen1 : (updateCol g.tableau dstCol
      (fun c => { c with faceUp := c.faceUp ++ colS.faceUp.drop srcRow })).length =
      g.tableau.length := by
    simp [updateCol]
  have hg1 : (updateCol g.tableau dstCol
      (fun c => { c with faceUp := c.faceUp ++ colS.faceUp.drop srcRow })).getD srcCol default =
      colS := by
    rw [hcolS]
    exact getD_set_ne _ _ _ _ _ hne
  have E2 := tabMS_updateCol (updateCol g.tableau dstCol
      (fun c => { c with faceUp := c.faceUp ++ colS.faceUp.drop srcRow })) srcCol
    (fun c => { c with faceUp := colS.faceUp.take srcRow }) (by rw [hlen1]; exact hs)
  rw [hg1] at E2
  have key : colMS { colD with faceUp := colD.faceUp ++ colS.faceUp.drop srcRow } +
      colMS { colS with faceUp := colS.faceUp.take srcRow } =
      colMS colD + colMS colS := by
    simp only [colMS, ← Multiset.coe_add]
    rw [← coe_take_add_drop colS.faceUp srcRow]
    abel
  have htab : tabMS (updateCol (updateCol g.tableau dstCol
      (fun c => { c with faceUp := c.faceUp ++ colS.faceUp.drop srcRow })) srcCol
      (fun c => { c with faceUp := colS.faceUp.take srcRow })) = tabMS g.tableau := by
    rw [← hcolD] at E1
    apply add_right_cancel (b := colMS colS + colMS colD)
    rw [← add_assoc, E2]
    have hre : tabMS (updateCol g.tableau dstCol
        (fun c => { c with faceUp := c.faceUp ++ colS.faceUp.drop srcRow })) +
        colMS { colS with faceUp := colS.faceUp.take srcRow } + colMS colD =
        (tabMS (updateCol g.tableau dstCol
          (fun c => { c with faceUp := c.faceUp ++ colS.faceUp.drop srcRow })) + colMS colD) +
        colMS { colS with faceUp := colS.faceUp.take srcRow } := by abel
    rw [hre, E1, add_assoc, key]
    abel
  constructor
  · simp only [cardsMS]
    rw [htab]
  · intro c2 hc
    apply goodStacks_map_flip _ c2 hc
    apply goodStacks_set _ hgoodS2
    exact goodStacks_set hgs hgoodD2

/-- Invariant preservation for a valid FOUNDATION_TO_TABLEAU move. -/
theorem f2t_invariants {g : Solitaire} {suitIdx dstColIdx : Nat}
    (hgs : GoodStacks g)
    (hv : g.isValid (Move.FOUNDATION_TO_TABLEAU suitIdx dstColIdx) = true) :
    cardsMS (g.applyMove (Move.FOUNDATION_TO_TABLEAU suitIdx dstColIdx)) = cardsMS g ∧
      GoodStacks (g.applyMove (Move.FOUNDATION_TO_TABLEAU suitIdx dstColIdx)) := by
  simp only [Solitaire.isValid] at hv
  by_cases hsi : suitIdx < SUITS.length
  swap
  · rw [if_neg hsi] at hv; simp at hv
  rw [if_pos hsi] at hv
  set suit := SUITS.getD suitIdx Suit.S with hsuit
  by_cases hf : g.foundation.get suit < 0
  · rw [if_pos hf] at hv; simp at hv
  rw [if_neg hf] at hv
  by_cases hdr : dstColIdx < g.tableau.length
  swap
  · rw [if_neg hdr] at hv; simp at hv
  rw [if_pos hdr] at hv
  set colD := g.tableau.getD dstColIdx default with hcolD
  match hl : colD.faceUp.getLast? with
  | none => rw [hl] at hv; simp at hv
  | some dstCard =>
    rw [hl] at hv
    simp only [Bool.and_eq_true, decide_eq_true_eq] at hv
    set f := g.foundation.get suit with hfval
    set fc : Card := ⟨f.toNat, suit⟩ with hfc
    have hgoodD : goodStack colD.faceUp = true := hgs _ (getD_mem_of_lt hdr)
    have hpush : goodStack (colD.faceUp ++ [fc]) = true := by
      apply goodStack_push hgoodD
      intro d hd2
      rw [hl] at hd2
      have : d = dstCard := by simpa using hd2.symm
      rw [this]
      apply stacksOn_of_conds
      · rw [areDifferentColors_comm]; exact hv.1
      · have := hv.2
        simp only [hfc] at this ⊢
        omega
    simp only [Solitaire.applyMove]
    rw [cardsMS_flip]
    constructor
    · simp only [cardsMS]
      have hup := tabMS_updateCol g.tableau dstColIdx
        (fun c => { c with faceUp := c.faceUp ++ [fc] }) hdr
      rw [← hcolD] at hup
      have htab : tabMS (updateCol g.tableau dstColIdx
          (fun c => { c with faceUp := c.faceUp ++ [fc] })) =
          tabMS g.tableau + (([fc] : List Card) : Multiset Card) := by
        apply add_right_cancel (b := colMS colD)
        rw [hup]
        simp only [colMS, ← Multiset.coe_add]
        abel
      rw [htab]
      have hA := foundMS_write g.foundation suit (f - 1)
      have hB : foundationCards suit f = foundationCards suit (f - 1) ++ [fc] :=
        foundationCards_split suit f (by omega)
      rw [hB] at hA
      have hfw : foundMS (g.foundation.write suit (f - 1)) +
          (([fc] : List Card) : Multiset Card) = foundMS g.foundation := by
        apply add_right_cancel (b := (foundationCards suit (f - 1) : Multiset Card))
        rw [add_assoc, add_comm (([fc] : List Card) : Multiset Card)
          ((foundationCards suit (f - 1) : List Card) : Multiset Card), Multiset.coe_add, hA]
      rw [← hfw]
      abel
    · intro c2 hc
      apply goodStacks_map_flip _ c2 hc
      exact goodStacks_set hgs hpush

/-- Cards are conserved and face-up stacks stay well-formed across one valid
move.  The stack hypothesis is needed: it rules out the self-move
TABLEAU_TO_TABLEAU src = dst (claim C8) under which the source column would
lose cards. -/
theorem applyMove_invariants {g : Solitaire} {m : Move}
    (hgs : GoodStacks g) (hv : g.isValid m = true) :
    cardsMS (g.applyMove m) = cardsMS g ∧ GoodStacks (g.applyMove m) := by
  match m with
  | Move.DRAW =>
    simp only [Solitaire.applyMove]
    rw [cardsMS_flip]
    have htb : (if (g.hand.length == 0 && decide (g.waste.length > 0)) = true then
        { g with hand := g.waste.reverse, waste := [] } else g).tableau = g.tableau := by
      split <;> rfl
    constructor
    · by_cases hh : (g.hand.length == 0 && decide (g.waste.length > 0)) = true
      · rw [if_pos hh]
        simp only [cardsMS]
        rw [drawLoop_ms]
        simp only [Bool.and_eq_true, beq_iff_eq, decide_eq_true_eq] at hh
        have h0 : g.hand = [] := List.eq_nil_of_length_eq_zero hh.1
        rw [h0, Multiset.coe_reverse]
        simp
      · rw [if_neg hh]
        simp only [cardsMS]
        rw [drawLoop_ms]
    · intro col hc
      simp only [htb] at hc
      exact goodStacks_map_flip hgs col hc
  | Move.WASTE_TO_FOUNDATION =>
    simp only [Solitaire.isValid] at hv
    match hl : g.waste.getLast? with
    | none => rw [hl] at hv; simp at hv
    | some card =>
      rw [hl] at hv
      have hcard : (card.v : Int) = g.foundation.get card.s + 1 := by simpa using hv
      simp only [Solitaire.applyMove, hl]
      rw [cardsMS_flip]
      constructor
      · simp only [cardsMS]
        set f := g.foundation.get card.s with hf
        have hA := foundMS_write g.foundation card.s (f + 1)
        have hB : foundationCards card.s (f + 1) = foundationCards card.s f ++ [card] := by
          have hcc : (⟨(f + 1).toNat, card.s⟩ : Card) = card := by
            have hvt : (f + 1).toNat = card.v := by omega
            rw [hvt]
          have hm1 : f + 1 - 1 = f := by omega
          rw [foundationCards_split card.s (f + 1) (by omega), hcc, hm1]
        rw [← hf] at hA
        rw [hB] at hA
        have hfw : foundMS (g.foundation.write card.s (f + 1)) =
            foundMS g.foundation + (([card] : List Card) : Multiset Card) := by
          apply add_right_cancel (b := (foundationCards card.s f : Multiset Card))
          rw [hA, ← Multiset.coe_add]
          abel
        rw [hfw]
        conv_rhs => rw [coe_split_getLast hl]
        abel
      · intro col hc
        exact goodStacks_map_flip hgs col hc
  | Move.WASTE_TO_TABLEAU dstCol =>
    simp only [Solitaire.isValid] at hv
    match hl : g.waste.getLast? with
    | none => rw [hl] at hv; simp at hv
    | some srcCard =>
      rw [hl] at hv
      set col := g.tableau.getD dstCol default with hcol
      have hv2 : (if dstCol < g.tableau.length then
          match col.faceUp.getLast? with
          | none => decide (srcCard.v = 12)
          | some dstCard => areDifferentColors srcCard dstCard &&
              decide ((srcCard.v : Int) = (dstCard.v : Int) - 1)
        else false) = true := hv
      by_cases hrange : dstCol < g.tableau.length
      swap
      · rw [if_neg hrange] at hv2; simp at hv2
      rw [if_pos hrange] at hv2
      simp only [Solitaire.applyMove, hl]
      rw [cardsMS_flip]
      have hgood : goodStack col.faceUp = true := hgs _ (getD_mem_of_lt hrange)
      have hpush : goodStack (col.faceUp ++ [srcCard]) = true := by
        apply goodStack_push hgood
        intro d hd
        rw [hd] at hv2
        simp only [Bool.and_eq_true, decide_eq_true_eq] at hv2
        exact stacksOn_of_conds hv2.1 hv2.2
      constructor
      · simp only [cardsMS]
        have hup := tabMS_updateCol g.tableau dstCol
          (fun c => { c with faceUp := c.faceUp ++ [srcCard] }) hrange
        rw [← hcol] at hup
        have htab : tabMS (updateCol g.tableau dstCol
            (fun c => { c with faceUp := c.faceUp ++ [srcCard] })) =
            tabMS g.tableau + (([srcCard] : List Card) : Multiset Card) := by
          apply add_right_cancel (b := colMS col)
          rw [hup]
          simp only [colMS, ← Multiset.coe_add]
          abel
        rw [htab]
        conv_rhs => rw [coe_split_getLast hl]
        abel
      · intro c2 hc
        apply goodStacks_map_flip _ c2 hc
        exact goodStacks_set hgs hpush
  | Move.TABLEAU_TO_FOUNDATION srcCol =>
    simp only [Solitaire.isValid] at hv
    by_cases hrange : srcCol < g.tableau.length
    swap
    · rw [if_neg hrange] at hv; simp at hv
    rw [if_pos hrange] at hv
    set col := g.tableau.getD srcCol default with hcol
    match hl : col.faceUp.getLast? with
    | none => rw [hl] at hv; simp at hv
    | some card =>
      rw [hl] at hv
      have hcard : (card.v : Int) = g.foundation.get card.s + 1 := by simpa using hv
      have hgood : goodStack col.faceUp = true := hgs _ (getD_mem_of_lt hrange)
      simp only [Solitaire.applyMove, ← hcol, hl]
      rw [cardsMS_flip]
      constructor
      · simp only [cardsMS]
        set f := g.foundation.get card.s with hf
        have hA := foundMS_write g.foundation card.s (f + 1)
        have hB : foundationCards card.s (f + 1) = foundationCards card.s f ++ [card] := by
          have hcc : (⟨(f + 1).toNat, card.s⟩ : Card) = card := by
            have hvt : (f + 1).toNat = card.v := by omega
            rw [hvt]
          have hm1 : f + 1 - 1 = f := by omega
          rw [foundationCards_split card.s (f + 1) (by omega), hcc, hm1]
        rw [← hf] at hA
        rw [hB] at hA
        have hfw : foundMS (g.foundation.write card.s (f + 1)) =
            foundMS g.foundation + (([card] : List Card) : Multiset Card) := by
          apply add_right_cancel (b := (foundationCards card.s f : Multiset Card))
          rw [hA, ← Multiset.coe_add]
          abel
        rw [hfw]
        have hup := tabMS_updateCol g.tableau srcCol
          (fun c => { c with faceUp := c.faceUp.dropLast }) hrange
        rw [← hcol] at hup
        have hup2 : tabMS (updateCol g.tableau srcCol
            (fun c => { c with faceUp := c.faceUp.dropLast })) + colMS col =
            tabMS g.tableau + colMS { col with faceUp := col.faceUp.dropLast } := hup
        have hsplit : colMS col = colMS { col with faceUp := col.faceUp.dropLast } +
            (([card] : List Card) : Multiset Card) := by
          simp only [colMS]
          conv_lhs => rw [coe_split_getLast hl]
          abel
        have htab : tabMS (updateCol g.tableau srcCol
            (fun c => { c with faceUp := c.faceUp.dropLast })) +
            (([card] : List Card) : Multiset Card) = tabMS g.tableau := by
          apply add_right_cancel (b := colMS { col with faceUp := col.faceUp.dropLast })
          have e : tabMS (updateCol g.tableau srcCol
              (fun c => { c with faceUp := c.faceUp.dropLast })) +
              (([card] : List Card) : Multiset Card) +
              colMS { col with faceUp := col.faceUp.dropLast } =
              tabMS (updateCol g.tableau srcCol
                (fun c => { c with faceUp := c.faceUp.dropLast })) + colMS col := by
            rw [hsplit]
            abel
          rw [e, hup2]
        rw [← htab]
        abel
      · intro c2 hc
        apply goodStacks_map_flip _ c2 hc
        exact goodStacks_set hgs (goodStack_dropLast hgood)
  | Move.TABLEAU_TO_TABLEAU srcCol srcRow dstCol => exact t2t_invariants hgs hv
  | Move.FOUNDATION_TO_TABLEAU suitIdx dstColIdx => exact f2t_invariants hgs hv

/-- Claim C3: validator/applier agreement.  For every game state satisfying
the state invariants (card multiset equal to the initial 52-card set, and
every face-up column sequence strictly descending by one with alternating
colors) and every move accepted by isValid, the state after applyMove still
satisfies both invariants. -/
theorem c3_isValid_applyMove_invariants {g : Solitaire} {m : Move}
    (hc : Conserved g) (hgs : GoodStacks g) (hv : g.isValid m = true) :
    Conserved (g.applyMove m) ∧ GoodStacks (g.applyMove m) := by
  obtain ⟨h1, h2⟩ := applyMove_invariants hgs hv
  exact ⟨by rw [Conserved, h1]; exact hc, h2⟩

/-- Witness for C3 at a concrete input: the game freshly dealt from the sorted
deck satisfies both invariants, the DRAW move is valid, and the invariants
hold after applying it. -/
theorem c3_witness :
    Conserved (Solitaire.new ⟨3, 7⟩ SORTED_DECK) ∧
      GoodStacks (Solitaire.new ⟨3, 7⟩ SORTED_DECK) ∧
      (Solitaire.new ⟨3, 7⟩ SORTED_DECK).isValid Move.DRAW = true ∧
      Conserved ((Solitaire.new ⟨3, 7⟩ SORTED_DECK).applyMove Move.DRAW) ∧
      GoodStacks ((Solitaire.new ⟨3, 7⟩ SORTED_DECK).applyMove Move.DRAW) := by
  have h1 : Conserved (Solitaire.new ⟨3, 7⟩ SORTED_DECK) := by decide
  have h2 : GoodStacks (Solitaire.new ⟨3, 7⟩ SORTED_DECK) := by decide
  have h3 : (Solitaire.new ⟨3, 7⟩ SORTED_DECK).isValid Move.DRAW = true := by decide
  obtain ⟨h4, h5⟩ := c3_isValid_applyMove_invariants h1 h2 h3
  exact ⟨h1, h2, h3, h4, h5⟩

theorem Foundation.get_write (fd : Foundation) (s s2 : Suit) (x : Int) :
    (fd.write s x).get s2 = if s2 = s then x else fd.get s2 := by
  cases s <;> cases s2 <;> simp [Foundation.write, Foundation.get]

/-- A tableau update whose column gains exactly the extra cards `x` adds `x`
to the tableau multiset. -/
theorem tabMS_updateCol_add {tab : List Column} {column : Nat} (f : Column → Column)
    (x : Multiset Card)
    (hf : colMS (f (tab.getD column default)) = colMS (tab.getD column default) + x)
    (h : column < tab.length) :
    tabMS (updateCol tab column f) = tabMS tab + x := by
  have hup := tabMS_updateCol tab column f h
  apply add_right_cancel (b := colMS (tab.getD column default))
  rw [hup, hf]
  abel

theorem dealStep_len (tab : List Column) (row column : Nat) (hand : List Card) :
    (dealStep tab row column hand).2.length = tab.length := by
  unfold dealStep
  match hand.getLast? with
  | none => rfl
  | some c =>
    by_cases h : (row == column) = true <;> simp [h, updateCol]

theorem dealStep_ms {tab : List Column} {row column : Nat} {hand : List Card}
    (h : column < tab.length) :
    ((dealStep tab row column hand).1 : Multiset Card) +
      tabMS (dealStep tab row column hand).2 =
      (hand : Multiset Card) + tabMS tab := by
  unfold dealStep
  match hl : hand.getLast? with
  | none => rfl
  | some card =>
    have hh : (hand : Multiset Card) =
        (hand.dropLast : Multiset Card) + (([card] : List Card) : Multiset Card) :=
      coe_split_getLast hl
    by_cases hrc : (row == column) = true
    · simp only [hrc, if_pos]
      rw [tabMS_updateCol_add _ (([card] : List Card) : Multiset Card)
        (by simp only [colMS, ← Multiset.coe_add]; abel) h, hh]
      abel
    · simp only [hrc]
      rw [if_neg (by simp)]
      rw [tabMS_updateCol_add _ (([card] : List Card) : Multiset Card)
        (by simp only [colMS, ← Multiset.coe_add]; abel) h, hh]
      abel

theorem getD_set_self_of_lt {α : Type} (t : List α) (i : Nat) (x d : α)
    (h : i < t.length) : (t.set i x).getD i d = x := by
  rw [List.getD_eq_getElem?_getD, List.getElem?_set_self h]
  rfl

theorem dealStep_faceUp_eq {tab : List Column} {row column : Nat} {hand : List Card}
    {c : Nat} (h : c ≠ column ∨ row ≠ column) :
    ((dealStep tab row column hand).2.getD c default).faceUp =
      (tab.getD c default).faceUp := by
  unfold dealStep
  match hand.getLast? with
  | none => rfl
  | some card =>
    simp only [updateCol]
    rcases h with hc | hrc
    · by_cases hrow : (row == column) = true
      · rw [if_pos hrow, getD_set_ne _ _ _ _ _ (fun he => hc he.symm)]
      · rw [if_neg hrow, getD_set_ne _ _ _ _ _ (fun he => hc he.symm)]
    · rw [if_neg (show ¬((row == column) = true) from fun hh => hrc (by simpa using hh))]
      by_cases hceq : c = column
      · subst hceq
        by_cases hlen : c < tab.length
        · rw [getD_set_self_of_lt _ _ _ _ hlen]
        · rw [List.getD_eq_getElem?_getD, List.getD_eq_getElem?_getD,
            List.getElem?_eq_none (by simp; omega),
            List.getElem?_eq_none (by omega)]
      · rw [getD_set_ne _ _ _ _ _ (fun he => hceq he.symm)]

theorem dealStep_faceUp_self {tab : List Column} {row column : Nat} {hand : List Card} :
    ((dealStep tab row column hand).2.getD column default).faceUp.length ≤
      (tab.getD column default).faceUp.length + 1 := by
  by_cases hrc : row = column
  swap
  · rw [dealStep_faceUp_eq (Or.inr hrc)]
    omega
  subst hrc
  unfold dealStep
  match hand.getLast? with
  | none => simp
  | some card =>
    simp only [updateCol, beq_self_eq_true, if_pos, reduceIte]
    by_cases hlen : row < tab.length
    · rw [getD_set_self_of_lt _ _ _ _ hlen]
      simp
    · rw [List.getD_eq_getElem?_getD,
        List.getElem?_eq_none (by simp; omega)]
      exact Nat.zero_le _

theorem dealRowLoop_ms (row : Nat) : ∀ (cols : List Nat) (hand : List Card)
    (tab : List Column), (∀ c ∈ cols, c < tab.length) →
    (((dealRowLoop row cols hand tab).1 : Multiset Card) +
      tabMS (dealRowLoop row cols hand tab).2 =
      (hand : Multiset Card) + tabMS tab) ∧
    (dealRowLoop row cols hand tab).2.length = tab.length
  | [], hand, tab, _ => ⟨rfl, rfl⟩
  | column :: rest, hand, tab, hc => by
    have hlt : column < tab.length := hc column (by simp)
    have hlen := dealStep_len tab row column hand
    have ih := dealRowLoop_ms row rest (dealStep tab row column hand).1
      (dealStep tab row column hand).2
      (fun c hm => by rw [hlen]; exact hc c (by simp [hm]))
    unfold dealRowLoop
    constructor
    · rw [ih.1, dealStep_ms hlt]
    · rw [ih.2, hlen]

theorem dealRowLoop_faceUp_eq (row : Nat) : ∀ (cols : List Nat) (hand : List Card)
    (tab : List Column) (c : Nat), c ≠ row →
    (((dealRowLoop row cols hand tab).2).getD c default).faceUp =
      (tab.getD c default).faceUp
  | [], _, _, _, _ => rfl
  | column :: rest, hand, tab, c, hc => by
    unfold dealRowLoop
    rw [dealRowLoop_faceUp_eq row rest _ _ c hc]
    by_cases hcol : c = column
    · subst hcol
      exact dealStep_faceUp_eq (Or.inr (fun he => hc he.symm))
    · exact dealStep_faceUp_eq (Or.inl hcol)

theorem dealRowLoop_faceUp_notmem (row : Nat) : ∀ (cols : List Nat) (hand : List Card)
    (tab : List Column), row ∉ cols →
    (((dealRowLoop row cols hand tab).2).getD row default).faceUp =
      (tab.getD row default).faceUp
  | [], _, _, _ => rfl
  | column :: rest, hand, tab, hnm => by
    unfold dealRowLoop
    rw [dealRowLoop_faceUp_notmem row rest _ _ (fun hm => hnm (by simp [hm]))]
    exact dealStep_faceUp_eq (Or.inl (fun he => hnm (by simp [he])))

theorem dealRowLoop_faceUp_self (row : Nat) : ∀ (cols : List Nat) (hand : List Card)
    (tab : List Column), cols.count row ≤ 1 →
    (((dealRowLoop row cols hand tab).2).getD row default).faceUp.length ≤
      (tab.getD row default).faceUp.length + cols.count row
  | [], _, _, _ => by unfold dealRowLoop; simp
  | column :: rest, hand, tab, hcount => by
    unfold dealRowLoop
    by_cases hcol : column = row
    · subst hcol
      have hc1 : (column :: rest).count column = rest.count column + 1 := by
        simp [List.count_cons]
      have hrest : rest.count column = 0 := by omega
      have hnm : column ∉ rest := List.count_eq_zero.1 hrest
      rw [dealRowLoop_faceUp_notmem column rest _ _ hnm, hc1, hrest]
      have := @dealStep_faceUp_self tab column column hand
      omega
    · have hc1 : (column :: rest).count row = rest.count row := by
        simp [List.count_cons, hcol]
      rw [hc1]
      have := dealRowLoop_faceUp_self row rest (dealStep tab row column hand).1
        (dealStep tab row column hand).2 (by omega)
      rw [dealStep_faceUp_eq (Or.inr (fun he => hcol he.symm))] at this
      exact this

theorem dealRows_ms (n : Nat) : ∀ (rows : List Nat) (hand : List Card)
    (tab : List Column), tab.length = n →
    (((dealRows n rows hand tab).1 : Multiset Card) +
      tabMS (dealRows n rows hand tab).2 =
      (hand : Multiset Card) + tabMS tab) ∧
    (dealRows n rows hand tab).2.length = n
  | [], hand, tab, hl => ⟨rfl, hl⟩
  | row :: rest, hand, tab, hl => by
    have hcols : ∀ c ∈ List.range' row (n - row), c < tab.length := by
      intro c hm
      rw [List.mem_range'] at hm
      obtain ⟨i, hi, rfl⟩ := hm
      omega
    have h1 := dealRowLoop_ms row (List.range' row (n - row)) hand tab hcols
    have ih := dealRows_ms n rest (dealRowLoop row (List.range' row (n - row)) hand tab).1
      (dealRowLoop row (List.range' row (n - row)) hand tab).2 (by rw [h1.2, hl])
    unfold dealRows
    constructor
    · rw [ih.1, h1.1]
    · exact ih.2

theorem dealRows_faceUp (n : Nat) : ∀ (rows : List Nat) (hand : List Card)
    (tab : List Column), rows.Nodup →
    (∀ c ∈ rows, (tab.getD c default).faceUp = []) →
    (∀ c, (tab.getD c default).faceUp.length ≤ 1) →
    ∀ c, ((dealRows n rows hand tab).2.getD c default).faceUp.length ≤ 1
  | [], hand, tab, _, _, hb, c => hb c
  | row :: rest, hand, tab, hnd, hz, hb, c => by
    unfold dealRows
    have hzr : (tab.getD row default).faceUp = [] := hz row (by simp)
    set t1 := (dealRowLoop row (List.range' row (n - row)) hand tab).2 with ht1
    have hz1 : ∀ c2 ∈ rest, (t1.getD c2 default).faceUp = [] := by
      intro c2 hm
      have hne : c2 ≠ row := by
        intro he
        subst he
        exact (List.nodup_cons.1 hnd).1 hm
      rw [ht1, dealRowLoop_faceUp_eq row _ _ _ c2 hne]
      exact hz c2 (by simp [hm])
    have hb1 : ∀ c2, (t1.getD c2 default).faceUp.length ≤ 1 := by
      intro c2
      by_cases hne : c2 = row
      · subst hne
        have hcnt : (List.range' c2 (n - c2)).count c2 ≤ 1 :=
          (List.nodup_iff_count_le_one.1 (List.nodup_range' _ _)) c2
        have := dealRowLoop_faceUp_self c2 (List.range' c2 (n - c2)) hand tab hcnt
        rw [hzr] at this
        rw [ht1]
        simp only [List.length_nil] at this
        omega
      · rw [ht1, dealRowLoop_faceUp_eq row _ _ _ c2 hne]
        exact hb c2
    exact dealRows_faceUp n rest _ t1 (List.nodup_cons.1 hnd).2 hz1 hb1 c

theorem foundMS_init : foundMS ⟨-1, -1, -1, -1⟩ = 0 := rfl

theorem tabMS_replicate (n : Nat) : tabMS (List.replicate n default) = 0 := by
  induction n with
  | zero => rfl
  | succ k ih =>
    rw [List.replicate_succ]
    show colMS default + tabMS (List.replicate k default) = 0
    rw [ih]
    rfl

/-- A freshly dealt game from a permutation of the 52-card deck is well
formed. -/
theorem new_wellFormed (rules : Rules) (deck : List Card)
    (h : deck.Perm SORTED_DECK) : WellFormed (Solitaire.new rules deck) := by
  have hms := dealRows_ms rules.tableauSize (List.range rules.tableauSize) deck
    (List.replicate rules.tableauSize default) (by simp)
  have hfu := dealRows_faceUp rules.tableauSize (List.range rules.tableauSize) deck
    (List.replicate rules.tableauSize default) (List.nodup_range _)
    (fun c _ => by
      by_cases hc : c < rules.tableauSize
      · rw [List.getD_eq_getElem _ _ (by simpa using hc), List.getElem_replicate]
        rfl
      · rw [List.getD_eq_getElem?_getD, List.getElem?_eq_none (by simpa using Nat.le_of_not_lt hc)]
        rfl)
    (fun c => by
      by_cases hc : c < rules.tableauSize
      · rw [List.getD_eq_getElem _ _ (by simpa using hc), List.getElem_replicate]
        decide
      · rw [List.getD_eq_getElem?_getD, List.getElem?_eq_none (by simpa using Nat.le_of_not_lt hc)]
        exact Nat.zero_le _)
  refine ⟨?_, ?_, ?_⟩
  · show cardsMS _ = _
    simp only [cardsMS, Solitaire.new]
    rw [foundMS_init]
    have := hms.1
    rw [tabMS_replicate] at this
    rw [Multiset.coe_nil]
    have hd : (deck : Multiset Card) = (SORTED_DECK : Multiset Card) :=
      Multiset.coe_eq_coe.2 h
    rw [add_zero] at this ⊢
    rw [add_zero, this, hd]
  · intro col hc
    simp only [Solitaire.new] at hc
    rw [List.mem_iff_getElem] at hc
    obtain ⟨i, hi, hcol⟩ := hc
    have := hfu i
    rw [List.getD_eq_getElem _ _ hi, hcol] at this
    exact goodStack_of_short this
  · intro s
    cases s <;> simp [Solitaire.new, Foundation.get]

/-- Foundation entries stay at least -1 across a valid move. -/
theorem applyMove_foundation_bound {g : Solitaire} {m : Move}
    (hv : g.isValid m = true) (hb : ∀ s, -1 ≤ g.foundation.get s) :
    ∀ s, -1 ≤ (g.applyMove m).foundation.get s := by
  intro s
  match m with
  | Move.DRAW =>
    simp only [Solitaire.applyMove]
    split <;> exact hb s
  | Move.WASTE_TO_FOUNDATION =>
    simp only [Solitaire.applyMove]
    match g.waste.getLast? with
    | none => exact hb s
    | some card =>
      rw [Foundation.get_write]
      split
      · have := hb card.s
        omega
      · exact hb s
  | Move.WASTE_TO_TABLEAU dstCol =>
    simp only [Solitaire.applyMove]
    match g.waste.getLast? with
    | none => exact hb s
    | some card => exact hb s
  | Move.TABLEAU_TO_FOUNDATION srcCol =>
    simp only [Solitaire.applyMove]
    match (g.tableau.getD srcCol default).faceUp.getLast? with
    | none => exact hb s
    | some card =>
      rw [Foundation.get_write]
      split
      · have := hb card.s
        omega
      · exact hb s
  | Move.TABLEAU_TO_TABLEAU srcCol srcRow dstCol =>
    simp only [Solitaire.applyMove]
    exact hb s
  | Move.FOUNDATION_TO_TABLEAU suitIdx dstColIdx =>
    simp only [Solitaire.isValid] at hv
    by_cases hsi : suitIdx < SUITS.length
    swap
    · rw [if_neg hsi] at hv; simp at hv
    rw [if_pos hsi] at hv
    by_cases hf : g.foundation.get (SUITS.getD suitIdx Suit.S) < 0
    · rw [if_pos hf] at hv; simp at hv
    simp only [Solitaire.applyMove]
    rw [Foundation.get_write]
    split
    · omega
    · exact hb s

/-- Full invariant preservation. -/
theorem applyMove_wellFormed {g : Solitaire} {m : Move}
    (hw : WellFormed g) (hv : g.isValid m = true) : WellFormed (g.applyMove m) := by
  obtain ⟨h1, h2, h3⟩ := hw
  obtain ⟨h4, h5⟩ := applyMove_invariants h2 hv
  exact ⟨by rw [Conserved, h4]; exact h1, h5, applyMove_foundation_bound hv h3⟩

theorem reachable_wellFormed {g : Solitaire} (h : Reachable g) : WellFormed g := by
  induction h with
  | init rules deck hd => exact new_wellFormed rules deck hd
  | step m hg hv ih => exact applyMove_wellFormed ih hv

theorem mem_of_getLast?_eq {l : List Card} {c : Card} (h : l.getLast? = some c) :
    c ∈ l := by
  rw [← dropLast_append_of_getLast h]
  simp

theorem le_sum_of_mem {α : Type} {l : List α} {x : α} (h : x ∈ l)
    (F : α → Multiset Card) : F x ≤ (l.map F).sum := by
  induction l with
  | nil => simp at h
  | cons a t ih =>
    rcases List.mem_cons.1 h with rfl | hm
    · simp only [List.map_cons, List.sum_cons]
      exact Multiset.le_add_right _ _
    · simp only [List.map_cons, List.sum_cons]
      calc F x ≤ (t.map F).sum := ih hm
        _ ≤ F a + (t.map F).sum := by
          rw [add_comm]
          exact Multiset.le_add_right _ _

theorem SORTED_DECK_nodup : SORTED_DECK.Nodup := by decide

/-- A card of a conserved game appears at most once; in particular a card
sitting in the waste or on the tableau cannot also be implied by the
foundation. -/
theorem count_cardsMS_le_one {g : Solitaire} (hc : Conserved g) (a : Card) :
    Multiset.count a (cardsMS g) ≤ 1 := by
  rw [hc, Multiset.coe_count]
  exact List.nodup_iff_count_le_one.1 SORTED_DECK_nodup a

theorem ace_mem_foundationCards {s : Suit} {f : Int} (h : 0 ≤ f) :
    (⟨0, s⟩ : Card) ∈ foundationCards s f := by
  unfold foundationCards
  rw [List.mem_map]
  exact ⟨0, by rw [List.mem_range]; omega, rfl⟩

/-- If the ace of some suit is in the waste or on the tableau of a conserved
game, that suit's foundation is empty (provided the entry is at least -1). -/
theorem foundation_empty_of_ace_elsewhere {g : Solitaire} (hc : Conserved g)
    (hb : ∀ s, -1 ≤ g.foundation.get s) {card : Card} (hace : card.v = 0)
    (hm : (1 : Nat) ≤ Multiset.count card
      ((g.hand : Multiset Card) + (g.waste : Multiset Card) + tabMS g.tableau)) :
    g.foundation.get card.s = -1 := by
  by_contra hne
  have hpos : 0 ≤ g.foundation.get card.s := by
    have := hb card.s
    omega
  have hmemf : card ∈ foundationCards card.s (g.foundation.get card.s) := by
    have h0 := ace_mem_foundationCards (s := card.s) hpos
    have hcc : (⟨0, card.s⟩ : Card) = card := by
      rw [← hace]
    rw [hcc] at h0
    exact h0
  have hsuits : card.s ∈ SUITS := by cases card.s <;> simp [SUITS]
  have hle : (foundationCards card.s (g.foundation.get card.s) : Multiset Card) ≤
      foundMS g.foundation :=
    le_sum_of_mem hsuits (fun s => (foundationCards s (g.foundation.get s) : Multiset Card))
  have h1 : (1 : Nat) ≤ Multiset.count card
      (foundationCards card.s (g.foundation.get card.s) : Multiset Card) := by
    rw [Multiset.coe_count]
    exact List.count_pos_iff.2 hmemf
  have h2 : (1 : Nat) ≤ Multiset.count card (foundMS g.foundation) :=
    Nat.le_trans h1 (Multiset.count_le_of_le _ hle)
  have htot := count_cardsMS_le_one hc card
  rw [cardsMS, Multiset.count_add] at htot
  omega

/-- An ace on top of the waste of a well-formed game may always move to the
foundation. -/
theorem ace_waste_valid {g : Solitaire} (hw : WellFormed g) {card : Card}
    (hl : g.waste.getLast? = some card) (hace : card.v = 0) :
    g.isValid Move.WASTE_TO_FOUNDATION = true := by
  obtain ⟨hc, -, hb⟩ := hw
  have hf : g.foundation.get card.s = -1 := by
    apply foundation_empty_of_ace_elsewhere hc hb hace
    have hwc : (1 : Nat) ≤ Multiset.count card (g.waste : Multiset Card) := by
      rw [Multiset.coe_count]
      exact List.count_pos_iff.2 (mem_of_getLast?_eq hl)
    rw [Multiset.count_add, Multiset.count_add]
    omega
  simp only [Solitaire.isValid, hl]
  rw [hf, hace]
  simp

/-- An ace on top of a tableau column of a well-formed game may always move to
the foundation. -/
theorem ace_tableau_valid {g : Solitaire} (hw : WellFormed g) {i : Nat}
    (hi : i < g.tableau.length) {card : Card}
    (hl : (g.tableau.getD i default).faceUp.getLast? = some card) (hace : card.v = 0) :
    g.isValid (Move.TABLEAU_TO_FOUNDATION i) = true := by
  obtain ⟨hc, -, hb⟩ := hw
  have hcnt : (1 : Nat) ≤ Multiset.count card (tabMS g.tableau) := by
    have hmem : g.tableau.getD i default ∈ g.tableau := getD_mem_of_lt hi
    have hle : colMS (g.tableau.getD i default) ≤ tabMS g.tableau :=
      le_sum_of_mem hmem colMS
    have h1 : (1 : Nat) ≤ Multiset.count card (colMS (g.tableau.getD i default)) := by
      rw [colMS, Multiset.count_add, Multiset.coe_count, Multiset.coe_count]
      have := List.count_pos_iff.2 (mem_of_getLast?_eq hl)
      omega
    exact Nat.le_trans h1 (Multiset.count_le_of_le _ hle)
  have hf : g.foundation.get card.s = -1 := by
    apply foundation_empty_of_ace_elsewhere hc hb hace
    rw [Multiset.count_add]
    omega
  simp only [Solitaire.isValid]
  rw [if_pos hi]
  simp only [hl]
  rw [hf, hace]
  simp

theorem aceMoves_valid {g : Solitaire} (hw : WellFormed g) :
    ∀ m ∈ Solver.getAceMoves g, g.isValid m = true := by
  intro m hm
  unfold Solver.getAceMoves at hm
  rw [List.mem_append] at hm
  rcases hm with hm | hm
  · match hl : g.waste.getLast? with
    | none => simp only [hl] at hm; simp at hm
    | some c =>
      simp only [hl] at hm
      by_cases hc : (c.v == 0) = true
      · rw [if_pos hc] at hm
        simp only [List.mem_singleton] at hm
        subst hm
        exact ace_waste_valid hw hl (by simpa using hc)
      · rw [if_neg hc] at hm
        simp at hm
  · simp only [List.mem_filterMap, List.mem_range] at hm
    obtain ⟨i, hi, hfi⟩ := hm
    match hl : (g.tableau.getD i default).faceUp.getLast? with
    | none => simp only [hl] at hfi; exact Option.noConfusion hfi
    | some c =>
      simp only [hl] at hfi
      by_cases hc : (c.v == 0) = true
      · rw [if_pos hc] at hfi
        simp only [Option.some.injEq] at hfi
        subst hfi
        exact ace_tableau_valid hw hi hl (by simpa using hc)
      · rw [if_neg hc] at hfi
        simp at hfi

theorem movesToFoundation_valid (g : Solitaire) :
    ∀ m ∈ Solver.getMovesToFoundation g, g.isValid m = true := by
  intro m hm
  unfold Solver.getMovesToFoundation at hm
  rw [List.mem_append] at hm
  rcases hm with hm | hm
  · match hl : g.waste.getLast? with
    | none => simp only [hl] at hm; simp at hm
    | some c =>
      simp only [hl] at hm
      by_cases hc : (c.v != 0 && g.isValid Move.WASTE_TO_FOUNDATION) = true
      · rw [if_pos hc] at hm
        simp only [List.mem_singleton] at hm
        subst hm
        rw [Bool.and_eq_true] at hc
        exact hc.2
      · rw [if_neg hc] at hm
        simp at hm
  · simp only [List.mem_filterMap, List.mem_range] at hm
    obtain ⟨i, hi, hfi⟩ := hm
    match hl : (g.tableau.getD i default).faceUp.getLast? with
    | none => simp only [hl] at hfi; exact Option.noConfusion hfi
    | some c =>
      simp only [hl] at hfi
      by_cases hc : (c.v != 0 && g.isValid (Move.TABLEAU_TO_FOUNDATION i)) = true
      · rw [if_pos hc] at hfi
        simp only [Option.some.injEq] at hfi
        subst hfi
        rw [Bool.and_eq_true] at hc
        exact hc.2
      · rw [if_neg hc] at hfi
        simp at hfi

theorem revealList_valid (g : Solitaire) :
    ∀ m ∈ Solver.getCardRevealingMovesList g, g.isValid m = true := by
  intro m hm
  unfold Solver.getCardRevealingMovesList at hm
  rw [(sortJS_perm _ _).mem_iff] at hm
  simp only [List.mem_flatMap, List.mem_range] at hm
  obtain ⟨i, hi, hm⟩ := hm
  by_cases hfu : (g.tableau.getD i default).faceUp.length > 0
  swap
  · rw [if_neg hfu] at hm; simp at hm
  rw [if_pos hfu] at hm
  simp only [List.mem_filterMap, List.mem_range] at hm
  obtain ⟨j, hj, hfj⟩ := hm
  by_cases hij : (i == j) = true
  · rw [if_pos hij] at hfj; simp at hfj
  rw [if_neg hij] at hfj
  by_cases hv : g.isValid (Move.TABLEAU_TO_TABLEAU i 0 j) = true
  · rw [if_pos hv] at hfj
    simp only [Option.some.injEq] at hfj
    subst hfj
    exact hv
  · rw [if_neg hv] at hfj
    simp at hfj

theorem wasteToTableauMoves_valid (g : Solitaire) :
    ∀ m ∈ Solver.getMovesWasteToTableau g, g.isValid m = true := by
  intro m hm
  unfold Solver.getMovesWasteToTableau at hm
  simp only [List.mem_filterMap, List.mem_range] at hm
  obtain ⟨i, hi, hfi⟩ := hm
  by_cases hv : g.isValid (Move.WASTE_TO_TABLEAU i) = true
  · rw [if_pos hv] at hfi
    simp only [Option.some.injEq] at hfi
    subst hfi
    exact hv
  · rw [if_neg hv] at hfi
    simp at hfi

theorem drawMove_valid (g : Solitaire) :
    ∀ m ∈ Solver.getDrawMove g, g.isValid m = true := by
  intro m hm
  unfold Solver.getDrawMove at hm
  by_cases hv : g.isValid Move.DRAW = true
  · rw [if_pos hv] at hm
    simp only [List.mem_singleton] at hm
    subst hm
    exact hv
  · rw [if_neg hv] at hm
    simp at hm

theorem nonrevealList_valid (g : Solitaire) :
    ∀ m ∈ Solver.getMovesTableauToTableauList g, g.isValid m = true := by
  intro m hm
  unfold Solver.getMovesTableauToTableauList at hm
  simp only [List.mem_flatMap, List.mem_range] at hm
  obtain ⟨i, hi, hm⟩ := hm
  obtain ⟨j, hj, hm⟩ := hm
  simp only [List.mem_filterMap, List.mem_range] at hm
  obtain ⟨k, hk, hfk⟩ := hm
  by_cases hik : (i == k) = true
  · rw [if_pos hik] at hfk; simp at hfk
  rw [if_neg hik] at hfk
  by_cases hv : g.isValid (Move.TABLEAU_TO_TABLEAU i j k) = true
  · rw [if_pos hv] at hfk
    simp only [Option.some.injEq] at hfk
    subst hfk
    exact hv
  · rw [if_neg hv] at hfk
    simp at hfk

/-- Claim C10: on a game reachable by legal moves from a valid deal, every
move produced by Solver.getValidMoves is accepted by isValid — in particular
the ace-group moves, which getAceMoves emits after checking only that the
waste top or a tableau face-up top is an ace, without calling isValid.  The
move caches are assumed not to hold an entry for this game's tableau key (as
at the start of a search). -/
theorem c10_getValidMoves_valid {g : Solitaire} {st : SolverSt}
    (hg : Reachable g)
    (h1 : st.revealCache.lookup (tableauCacheString g) = none)
    (h2 : st.nonrevealCache.lookup (tableauCacheString g) = none) :
    ∀ m ∈ (Solver.getValidMoves st g).1, g.isValid m = true := by
  have hw := reachable_wellFormed hg
  intro m hm
  unfold Solver.getValidMoves at hm
  simp only [Solver.getCardRevealingMoves, Solver.getMovesTableauToTableau, h1, h2] at hm
  simp only [List.mem_append] at hm
  rcases hm with ((((hm | hm) | hm) | hm) | hm) | hm
  · exact aceMoves_valid hw m hm
  · exact movesToFoundation_valid g m hm
  · exact revealList_valid g m hm
  · exact wasteToTableauMoves_valid g m hm
  · exact drawMove_valid g m hm
  · exact nonrevealList_valid g m hm

/-- Witness for C10 at a concrete input: the game freshly dealt from the
sorted deck with an empty solver state. -/
theorem c10_witness :
    Move.DRAW ∈ (Solver.getValidMoves (SolverSt.new 1000000)
      (Solitaire.new ⟨3, 7⟩ SORTED_DECK)).1 ∧
    (Solitaire.new ⟨3, 7⟩ SORTED_DECK).isValid Move.DRAW = true :=
  ⟨by decide, @c10_getValidMoves_valid (Solitaire.new ⟨3, 7⟩ SORTED_DECK)
    (SolverSt.new 1000000)
    (Reachable.init ⟨3, 7⟩ SORTED_DECK (List.Perm.refl _)) rfl rfl
    Move.DRAW (by decide)⟩

/-- Counterexample to claim C8 as stated: on an arbitrary game state (not
satisfying the stack invariant) a TABLEAU_TO_TABLEAU move with src = dst can
be accepted by isValid, because the source never compares the two column
indices. -/
theorem c8_counterexample :
    gameC8.isValid (Move.TABLEAU_TO_TABLEAU 0 0 0) = true := by decide

/-- Claim C8, amended: on every game state whose face-up piles satisfy the
descending/alternating stack invariant, isValid rejects every
TABLEAU_TO_TABLEAU move whose source column equals its destination column. -/
theorem c8_amended {g : Solitaire} (hg : GoodStacks g) (s r : Nat) :
    g.isValid (Move.TABLEAU_TO_TABLEAU s r s) = false :=
  t2t_self_invalid hg s r

/-- Witness for the amended C8 at a concrete input. -/
theorem c8_witness :
    GoodStacks gameC8w ∧
      gameC8w.isValid (Move.TABLEAU_TO_TABLEAU 0 1 0) = false :=
  ⟨by decide, c8_amended (by decide) 0 1⟩

theorem LRUCache.has_size (c : LRUCache) (k : Str) : ((c.has k).2).size = c.size := by
  unfold LRUCache.has
  by_cases hc : c.cache.contains k
  · rw [if_pos hc]
    show (c.cache.erase k ++ [k]).length = c.cache.length
    rw [List.length_append, List.length_erase_of_mem (by simpa using hc)]
    have : c.cache ≠ [] := by
      intro h
      rw [h] at hc
      simp at hc
    have : 0 < c.cache.length := List.length_pos.2 this
    simp
    omega
  · rw [if_neg hc]

theorem LRUCache.add_size_le {c : LRUCache} (h1 : 1 ≤ c.maxSize)
    (h : c.size ≤ c.maxSize) (k : Str) : (c.add k).size ≤ c.maxSize := by
  have hlen : c.cache.length ≤ c.maxSize := h
  unfold LRUCache.add
  by_cases hc : c.cache.contains k
  · rw [if_pos hc]
    show (c.cache.erase k ++ [k]).length ≤ c.maxSize
    rw [List.length_append, List.length_erase_of_mem (by simpa using hc)]
    have hne : c.cache ≠ [] := by
      intro hh
      rw [hh] at hc
      simp at hc
    have := List.length_pos.2 hne
    simp only [List.length_singleton]
    omega
  · rw [if_neg hc]
    by_cases hfull : c.cache.length ≥ c.maxSize
    · rw [if_pos hfull]
      show (c.cache.tail ++ [k]).length ≤ c.maxSize
      rw [List.length_append, List.length_tail]
      have hne : c.cache ≠ [] := by
        intro hh
        rw [hh] at hfull
        simp at hfull
        omega
      have := List.length_pos.2 hne
      simp only [List.length_singleton]
      omega
    · rw [if_neg hfull]
      show (c.cache ++ [k]).length ≤ c.maxSize
      rw [List.length_append]
      simp only [List.length_singleton]
      omega

theorem LRUCache.has_maxSize (c : LRUCache) (k : Str) :
    ((c.has k).2).maxSize = c.maxSize := by
  unfold LRUCache.has
  by_cases hc : c.cache.contains k
  · rw [if_pos hc]
  · rw [if_neg hc]

theorem LRUCache.add_maxSize (c : LRUCache) (k : Str) :
    (c.add k).maxSize = c.maxSize := by
  unfold LRUCache.add
  by_cases hc : c.cache.contains k
  · rw [if_pos hc]
  · rw [if_neg hc]
    by_cases hfull : c.cache.length ≥ c.maxSize
    · rw [if_pos hfull]
    · rw [if_neg hfull]

theorem LRUCache.run_size_le : ∀ (ops : List LRUOp) (c : LRUCache),
    1 ≤ c.maxSize → c.size ≤ c.maxSize →
    (c.run ops).size ≤ c.maxSize ∧ (c.run ops).maxSize = c.maxSize
  | [], c, _, h => ⟨h, rfl⟩
  | LRUOp.has k :: rest, c, h1, h => by
    unfold LRUCache.run
    have hm := LRUCache.has_maxSize c k
    have hs := LRUCache.has_size c k
    have ih := LRUCache.run_size_le rest (c.has k).2 (by rw [hm]; exact h1)
      (by rw [hm, hs]; exact h)
    rw [hm] at ih
    exact ih
  | LRUOp.add k :: rest, c, h1, h => by
    unfold LRUCache.run
    have hm := LRUCache.add_maxSize c k
    have hs := LRUCache.add_size_le h1 h k
    have ih := LRUCache.run_size_le rest (c.add k) (by rw [hm]; exact h1)
      (by rw [hm]; exact hs)
    rw [hm] at ih
    exact ih

/-- Claim C7: strict LRU order with refresh-on-hit, and the size bound.  After
add(a); add(b); has(a); add(c) on a cache of maxSize 2 with distinct keys, b
has been evicted while a and c remain; and for maxSize at least 1 no sequence
of has/add operations pushes the size beyond maxSize. -/
theorem c7_lru_cache :
    (∀ a b c : Str, a ≠ b → a ≠ c → b ≠ c →
      ((((((LRUCache.new 2).add a).add b).has a).2.add c).has b).1 = false ∧
      ((((((LRUCache.new 2).add a).add b).has a).2.add c).has a).1 = true ∧
      ((((((LRUCache.new 2).add a).add b).has a).2.add c).has c).1 = true) ∧
    (∀ (n : Nat) (ops : List LRUOp), 1 ≤ n →
      ((LRUCache.new n).run ops).size ≤ n) := by
  constructor
  · intro a b c hab hac hbc
    have hba : (b == a) = false := beq_eq_false_iff_ne.2 (Ne.symm hab)
    have hca : (c == a) = false := beq_eq_false_iff_ne.2 (Ne.symm hac)
    have hcb : (c == b) = false := beq_eq_false_iff_ne.2 (Ne.symm hbc)
    have hbc2 : (b == c) = false := beq_eq_false_iff_ne.2 hbc
    have hab2 : (a == b) = false := beq_eq_false_iff_ne.2 hab
    have hac2 : (a == c) = false := beq_eq_false_iff_ne.2 hac
    have e1 : (LRUCache.new 2).add a = ⟨2, [a]⟩ := by
      simp [LRUCache.new, LRUCache.add]
    have e2 : (⟨2, [a]⟩ : LRUCache).add b = ⟨2, [a, b]⟩ := by
      simp [LRUCache.add, List.contains, List.elem, hba]
    have e3 : ((⟨2, [a, b]⟩ : LRUCache).has a).2 = ⟨2, [b, a]⟩ := by
      simp [LRUCache.has, List.contains, List.elem, List.erase, beq_self_eq_true]
    have e4 : (⟨2, [b, a]⟩ : LRUCache).add c = ⟨2, [a, c]⟩ := by
      simp [LRUCache.add, List.contains, List.elem, hca, hcb]
    rw [e1, e2, e3, e4]
    refine ⟨?_, ?_, ?_⟩
    · simp [LRUCache.has, List.contains, List.elem, hba, hbc2]
    · simp [LRUCache.has, List.contains, List.elem, hab2, hac2]
    · simp [LRUCache.has, List.contains, List.elem, hca]
  · intro n ops h1
    exact (LRUCache.run_size_le ops (LRUCache.new n) h1 (Nat.zero_le _)).1

/-- Witness for C7 at concrete inputs. -/
theorem c7_witness :
    (((((((LRUCache.new 2).add ['a']).add ['b']).has ['a']).2.add ['c']).has ['b']).1 = false ∧
      ((((((LRUCache.new 2).add ['a']).add ['b']).has ['a']).2.add ['c']).has ['a']).1 = true ∧
      ((((((LRUCache.new 2).add ['a']).add ['b']).has ['a']).2.add ['c']).has ['c']).1 = true) ∧
    ((LRUCache.new 2).run
      [LRUOp.add ['x'], LRUOp.add ['y'], LRUOp.add ['z'], LRUOp.has ['y']]).size ≤ 2 :=
  ⟨c7_lru_cache.1 ['a'] ['b'] ['c'] (by decide) (by decide) (by decide),
    c7_lru_cache.2 2 [LRUOp.add ['x'], LRUOp.add ['y'], LRUOp.add ['z'], LRUOp.has ['y']]
      (by decide)⟩

theorem strLe_total : ∀ a b : Str, (strLe a b || strLe b a) = true
  | [], _ => by simp [strLe]
  | _ :: _, [] => by simp [strLe]
  | a :: as, b :: bs => by
    by_cases hab : a < b
    · simp [strLe, hab]
    by_cases hba : b < a
    · simp [strLe, hab, hba]
    · simp only [strLe, if_neg hab, if_neg hba]
      exact strLe_total as bs

theorem strLe_antisymm : ∀ {a b : Str}, strLe a b = true → strLe b a = true → a = b
  | [], [], _, _ => rfl
  | [], _ :: _, _, h2 => by simp [strLe] at h2
  | _ :: _, [], h1, _ => by simp [strLe] at h1
  | a :: as, b :: bs, h1, h2 => by
    unfold strLe at h1 h2
    by_cases hab : a < b
    · rw [if_neg (lt_asymm hab), if_pos hab] at h2
      exact absurd h2 (by simp)
    by_cases hba : b < a
    · rw [if_neg hab, if_pos hba] at h1
      exact absurd h1 (by simp)
    · rw [if_neg hab, if_neg hba] at h1
      rw [if_neg hba, if_neg hab] at h2
      have he : a = b := le_antisymm (not_lt.1 hba) (not_lt.1 hab)
      rw [he, strLe_antisymm h1 h2]

theorem strLe_trans : ∀ {a b c : Str}, strLe a b = true → strLe b c = true →
    strLe a c = true
  | [], _, _, _, _ => rfl
  | _ :: _, [], _, h1, _ => by simp [strLe] at h1
  | _ :: _, _ :: _, [], _, h2 => by simp [strLe] at h2
  | a :: as, b :: bs, c :: cs, h1, h2 => by
    unfold strLe at h1 h2 ⊢
    by_cases hab : a < b
    · by_cases hbc : b < c
      · rw [if_pos (lt_trans hab hbc)]
      · by_cases hcb : c < b
        · rw [if_neg hbc, if_pos hcb] at h2
          exact absurd h2 (by simp)
        · have he : b = c := le_antisymm (not_lt.1 hcb) (not_lt.1 hbc)
          rw [if_pos (he ▸ hab)]
    · by_cases hba : b < a
      · rw [if_neg hab, if_pos hba] at h1
        exact absurd h1 (by simp)
      · have he : a = b := le_antisymm (not_lt.1 hba) (not_lt.1 hab)
        rw [if_neg hab, if_neg hba] at h1
        by_cases hbc : b < c
        · rw [if_pos (he ▸ hbc)]
        · by_cases hcb : c < b
          · rw [if_neg hbc, if_pos hcb] at h2
            exact absurd h2 (by simp)
          · rw [if_neg hbc, if_neg hcb] at h2
            have he2 : b = c := le_antisymm (not_lt.1 hcb) (not_lt.1 hbc)
            subst he
            subst he2
            rw [if_neg (lt_irrefl a), if_neg (lt_irrefl a)]
            exact strLe_trans h1 h2

theorem sortJS_strLe_eq_of_perm {l1 l2 : List Str} (h : l1.Perm l2) :
    sortJS strLe l1 = sortJS strLe l2 := by
  haveI : IsAntisymm Str (fun a b : Str => strLe a b = true) :=
    ⟨fun a b h1 h2 => strLe_antisymm h1 h2⟩
  apply List.eq_of_perm_of_sorted (r := fun a b : Str => strLe a b = true)
  · exact ((sortJS_perm strLe l1).trans h).trans (sortJS_perm strLe l2).symm
  · exact sortJS_sorted strLe_total (fun a b c => strLe_trans) l1
  · exact sortJS_sorted strLe_total (fun a b c => strLe_trans) l2

theorem tableauIdStrings_of_empty : ∀ (t : List Column),
    (∀ col ∈ t, col.faceDown = []) → ∀ i,
    tableauIdStrings i t = t.map (fun c => joinStrs (c.faceUp.map Card.str))
  | [], _, _ => rfl
  | col :: rest, h, i => by
    unfold tableauIdStrings
    have hcol : col.faceDown = [] := h col (by simp)
    rw [tableauIdStrings_of_empty rest (fun c hm => h c (by simp [hm])) (i + 1)]
    unfold tableauColId
    rw [hcol]
    simp

/-- Counterexample to claim C2 as stated: two states differing only by a
permutation of the tableau columns get different canonical ids, because the
per-column serialization embeds the column index whenever the column has
face-down cards. -/
theorem c2_counterexample :
    gameC2b.tableau.Perm gameC2a.tableau ∧
      gameC2b.rules = gameC2a.rules ∧
      gameC2b.foundation = gameC2a.foundation ∧
      gameC2b.hand = gameC2a.hand ∧
      gameC2b.waste = gameC2a.waste ∧
      getGameStateId gameC2a false ≠ getGameStateId gameC2b false := by
  refine ⟨?_, rfl, rfl, rfl, rfl, ?_⟩
  · decide
  · decide

/-- Claim C2, amended: two games that differ only by a permutation of the
tableau columns produce the same canonical id for the same can_flip_deck
value, provided every face-down pile is empty (the serialization embeds the
column index as soon as a column holds face-down cards, which breaks the
symmetry otherwise). -/
theorem c2_amended (g : Solitaire) (t2 : List Column) (canFlipDeck : Bool)
    (hperm : t2.Perm g.tableau) (hempty : ∀ col ∈ g.tableau, col.faceDown = []) :
    getGameStateId { g with tableau := t2 } canFlipDeck =
      getGameStateId g canFlipDeck := by
  have hempty2 : ∀ col ∈ t2, col.faceDown = [] :=
    fun col hm => hempty col (hperm.mem_iff.1 hm)
  have hsort : sortJS strLe (tableauIdStrings 0 t2) =
      sortJS strLe (tableauIdStrings 0 g.tableau) := by
    apply sortJS_strLe_eq_of_perm
    rw [tableauIdStrings_of_empty t2 hempty2 0,
      tableauIdStrings_of_empty g.tableau hempty 0]
    exact hperm.map _
  simp only [getGameStateId]
  rw [hsort]
  have hacc : accessibleDrawCards { g with tableau := t2 } = accessibleDrawCards g := rfl
  rw [hacc]

/-- Witness for the amended C2 at concrete inputs. -/
theorem c2_amended_witness :
    getGameStateId { gameC2w with tableau := gameC2wTab } false =
      getGameStateId gameC2w false :=
  c2_amended gameC2w gameC2wTab false (by decide) (by decide)

/-- Claim C4: the stack-loop guard, conservative variant.  A
TABLEAU_TO_TABLEAU move is skipped (returning null with seenCardStacks and
the solver state untouched, without recursing) exactly when both post-move
face-up strings are already in seenCardStacks; otherwise both strings are
inserted before the recursive call, and both are removed again when the
recursive call returns failure. -/
theorem c4_stack_loop_guard (oracle : Nat → Bool) (fuel : Nat) (g : Solitaire)
    (seen : List Str) (canFlipDeck : Bool) (depth : Nat) (st : SolverSt)
    (srcCol srcRow dstCol : Nat) :
    (seen.contains (joinStrs ((((g.clone).applyMove
          (Move.TABLEAU_TO_TABLEAU srcCol srcRow dstCol)).tableau.getD srcCol
          default).faceUp.map Card.str)) = true ∧
      seen.contains (joinStrs ((((g.clone).applyMove
          (Move.TABLEAU_TO_TABLEAU srcCol srcRow dstCol)).tableau.getD dstCol
          default).faceUp.map Card.str)) = true →
      Solver.maybeApplyMove oracle fuel (Move.TABLEAU_TO_TABLEAU srcCol srcRow dstCol)
        g seen canFlipDeck depth st = (none, seen, st)) ∧
    (¬(seen.contains (joinStrs ((((g.clone).applyMove
          (Move.TABLEAU_TO_TABLEAU srcCol srcRow dstCol)).tableau.getD srcCol
          default).faceUp.map Card.str)) = true ∧
        seen.contains (joinStrs ((((g.clone).applyMove
          (Move.TABLEAU_TO_TABLEAU srcCol srcRow dstCol)).tableau.getD dstCol
          default).faceUp.map Card.str)) = true) →
      Solver.maybeApplyMove oracle fuel (Move.TABLEAU_TO_TABLEAU srcCol srcRow dstCol)
        g seen canFlipDeck depth st =
        match Solver.getWinningMoves oracle fuel
            ((g.clone).applyMove (Move.TABLEAU_TO_TABLEAU srcCol srcRow dstCol))
            (addStack (addStack seen
              (joinStrs ((((g.clone).applyMove
                (Move.TABLEAU_TO_TABLEAU srcCol srcRow dstCol)).tableau.getD srcCol
                default).faceUp.map Card.str)))
              (joinStrs ((((g.clone).applyMove
                (Move.TABLEAU_TO_TABLEAU srcCol srcRow dstCol)).tableau.getD dstCol
                default).faceUp.map Card.str)))
            canFlipDeck (depth + 1) st with
        | (some ms, seen2, st2) => (some ms, seen2, st2)
        | (none, seen2, st2) =>
          (none, ((seen2.erase
            (joinStrs ((((g.clone).applyMove
              (Move.TABLEAU_TO_TABLEAU srcCol srcRow dstCol)).tableau.getD srcCol
              default).faceUp.map Card.str))).erase
            (joinStrs ((((g.clone).applyMove
              (Move.TABLEAU_TO_TABLEAU srcCol srcRow dstCol)).tableau.getD dstCol
              default).faceUp.map Card.str))), st2)) := by
  constructor
  · intro h
    simp only [Solver.maybeApplyMove, Solver.maybeApplyMoveCore]
    rw [if_pos (by rw [Bool.and_eq_true]; exact h)]
  · intro h
    simp only [Solver.maybeApplyMove, Solver.maybeApplyMoveCore]
    rw [if_neg (by rw [Bool.and_eq_true]; exact h)]

/-- Witness for C4 at concrete inputs: both branches of the guard. -/
theorem c4_witness :
    (Solver.maybeApplyMove (fun _ => false) 0 (Move.TABLEAU_TO_TABLEAU 0 0 0)
      gameC45 [([] : Str)] false 0 (SolverSt.new 1) = (none, [([] : Str)], SolverSt.new 1)) ∧
    (Solver.maybeApplyMove (fun _ => false) 0 (Move.TABLEAU_TO_TABLEAU 0 0 0)
      gameC45 [] false 0 (SolverSt.new 1) =
      (none, ([] : List Str), SolverSt.new 1)) := by
  constructor
  · exact (c4_stack_loop_guard (fun _ => false) 0 gameC45 [([] : Str)] false 0
      (SolverSt.new 1) 0 0 0).1 (by constructor <;> rfl)
  · have h := (c4_stack_loop_guard (fun _ => false) 0 gameC45 [] false 0
      (SolverSt.new 1) 0 0 0).2 (by intro hc; exact absurd hc.1 (by decide))
    rw [h]
    rfl

/-- Claim C5: the draw-cycle guard.  A DRAW attempted with an empty hand is
skipped when canFlipDeck is false and recurses with canFlipDeck set to false
when it was true; a DRAW with a non-empty hand passes canFlipDeck through;
WASTE_TO_FOUNDATION and WASTE_TO_TABLEAU recurse with canFlipDeck set to
true; the other non-DRAW non-tableau-to-tableau moves pass it through
unchanged (for TABLEAU_TO_TABLEAU the pass-through is part of claim C4's
characterization).  Together these mean the search never performs two
deck-flipping DRAWs without an intervening play from the waste. -/
theorem c5_draw_cycle_guard (oracle : Nat → Bool) (fuel : Nat) (g : Solitaire)
    (seen : List Str) (canFlipDeck : Bool) (depth : Nat) (st : SolverSt) :
    (g.hand.length = 0 →
      Solver.maybeApplyMove oracle fuel Move.DRAW g seen false depth st =
        (none, seen, st)) ∧
    (g.hand.length = 0 →
      Solver.maybeApplyMove oracle fuel Move.DRAW g seen true depth st =
        Solver.getWinningMoves oracle fuel ((g.clone).applyMove Move.DRAW)
          seen false (depth + 1) st) ∧
    (g.hand.length ≠ 0 →
      Solver.maybeApplyMove oracle fuel Move.DRAW g seen canFlipDeck depth st =
        Solver.getWinningMoves oracle fuel ((g.clone).applyMove Move.DRAW)
          seen canFlipDeck (depth + 1) st) ∧
    (Solver.maybeApplyMove oracle fuel Move.WASTE_TO_FOUNDATION g seen canFlipDeck depth st =
      Solver.getWinningMoves oracle fuel ((g.clone).applyMove Move.WASTE_TO_FOUNDATION)
        seen true (depth + 1) st) ∧
    (∀ d, Solver.maybeApplyMove oracle fuel (Move.WASTE_TO_TABLEAU d) g seen canFlipDeck depth st =
      Solver.getWinningMoves oracle fuel ((g.clone).applyMove (Move.WASTE_TO_TABLEAU d))
        seen true (depth + 1) st) ∧
    (∀ s, Solver.maybeApplyMove oracle fuel (Move.TABLEAU_TO_FOUNDATION s) g seen canFlipDeck depth st =
      Solver.getWinningMoves oracle fuel ((g.clone).applyMove (Move.TABLEAU_TO_FOUNDATION s))
        seen canFlipDeck (depth + 1) st) ∧
    (∀ si d, Solver.maybeApplyMove oracle fuel (Move.FOUNDATION_TO_TABLEAU si d) g seen canFlipDeck depth st =
      Solver.getWinningMoves oracle fuel ((g.clone).applyMove (Move.FOUNDATION_TO_TABLEAU si d))
        seen canFlipDeck (depth + 1) st) := by
  refine ⟨?_, ?_, ?_, ?_, ?_, ?_, ?_⟩
  · intro h
    simp only [Solver.maybeApplyMove, Solver.maybeApplyMoveCore]
    rw [if_pos (by simpa using h)]
    rfl
  · intro h
    simp only [Solver.maybeApplyMove, Solver.maybeApplyMoveCore]
    rw [if_pos (by simpa using h)]
    simp
  · intro h
    simp only [Solver.maybeApplyMove, Solver.maybeApplyMoveCore]
    rw [if_neg (by simpa using h)]
  · simp only [Solver.maybeApplyMove, Solver.maybeApplyMoveCore]
  · intro d
    simp only [Solver.maybeApplyMove, Solver.maybeApplyMoveCore]
  · intro s
    simp only [Solver.maybeApplyMove, Solver.maybeApplyMoveCore]
  · intro si d
    simp only [Solver.maybeApplyMove, Solver.maybeApplyMoveCore]

/-- Witness for C5 at concrete inputs: the empty-hand cases of the guard. -/
theorem c5_witness :
    (Solver.maybeApplyMove (fun _ => false) 0 Move.DRAW gameC45 [] false 0
      (SolverSt.new 1) = (none, [], SolverSt.new 1)) ∧
    (Solver.maybeApplyMove (fun _ => false) 0 Move.DRAW gameC45 [] true 0
      (SolverSt.new 1) =
      Solver.getWinningMoves (fun _ => false) 0 ((gameC45.clone).applyMove Move.DRAW)
        [] false (0 + 1) (SolverSt.new 1)) ∧
    (Solver.maybeApplyMove (fun _ => false) 0 Move.DRAW
      { gameC45 with hand := [⟨0, Suit.S⟩] } [] true 0 (SolverSt.new 1) =
      Solver.getWinningMoves (fun _ => false) 0
        (({ gameC45 with hand := [⟨0, Suit.S⟩] } : Solitaire).clone.applyMove Move.DRAW)
        [] true (0 + 1) (SolverSt.new 1)) :=
  ⟨(c5_draw_cycle_guard (fun _ => false) 0 gameC45 [] false 0 (SolverSt.new 1)).1 rfl,
    (c5_draw_cycle_guard (fun _ => false) 0 gameC45 [] true 0 (SolverSt.new 1)).2.1 rfl,
    (c5_draw_cycle_guard (fun _ => false) 0 { gameC45 with hand := [⟨0, Suit.S⟩] }
      [] true 0 (SolverSt.new 1)).2.2.1 (by decide)⟩

/-- The comparator order of getCardRevealingMoves is total. -/
theorem revealLe_total (g : Solitaire) :
    ∀ a b, (Solver.revealLe g a b || Solver.revealLe g b a) = true := by
  intro a b
  simp only [Solver.revealLe, Solver.revealCmp, Bool.or_eq_true, decide_eq_true_eq,
    bne_iff_ne, ne_eq]
  split_ifs <;> push_neg at * <;> omega

/-- The comparator order of getCardRevealingMoves is transitive. -/
theorem revealLe_trans (g : Solitaire) (a b c : Move)
    (h1 : Solver.revealLe g a b = true) (h2 : Solver.revealLe g b c = true) :
    Solver.revealLe g a c = true := by
  simp only [Solver.revealLe, Solver.revealCmp, decide_eq_true_eq, bne_iff_ne,
    ne_eq] at h1 h2 ⊢
  split_ifs at h1 h2 ⊢ <;> push_neg at * <;> omega

/-- Unfolding the comparator order into claim C6's description: if an empty
face-up pile exists, larger face-down counts come first; otherwise smaller
ones do; ties fall back to ascending source column index. -/
theorem revealLe_rel (g : Solitaire) (a b : Move)
    (h : Solver.revealLe g a b = true) :
    ((g.tableau.getD (a.extras.getD 0 0) default).faceDown.length ≠
        (g.tableau.getD (b.extras.getD 0 0) default).faceDown.length →
      (Solver.hasEmptySpace g.tableau = true →
        (g.tableau.getD (b.extras.getD 0 0) default).faceDown.length <
          (g.tableau.getD (a.extras.getD 0 0) default).faceDown.length) ∧
      (Solver.hasEmptySpace g.tableau = false →
        (g.tableau.getD (a.extras.getD 0 0) default).faceDown.length <
          (g.tableau.getD (b.extras.getD 0 0) default).faceDown.length)) ∧
    ((g.tableau.getD (a.extras.getD 0 0) default).faceDown.length =
        (g.tableau.getD (b.extras.getD 0 0) default).faceDown.length →
      a.extras.getD 0 0 ≤ b.extras.getD 0 0) := by
  simp only [Solver.revealLe, Solver.revealCmp, decide_eq_true_eq, bne_iff_ne,
    ne_eq] at h
  cases hse : Solver.hasEmptySpace g.tableau <;> rw [hse] at h <;>
    split_ifs at h with hne hk <;> push_neg at hne <;>
    refine ⟨fun hne2 => ⟨fun hst => ?_, fun hsf => ?_⟩, fun heq => ?_⟩ <;>
    first
      | omega
      | exact Bool.noConfusion hst
      | exact Bool.noConfusion hsf
      | exact absurd hk (by simp)

/-- Membership in the generated reveal-move list: exactly the whole-stack
(srcRow = 0) tableau-to-tableau moves between distinct columns with a
non-empty source face-up pile that isValid accepts. -/
theorem revealList_mem (g : Solitaire) (m : Move) :
    m ∈ Solver.getCardRevealingMovesList g ↔
      ∃ i j, i < g.tableau.length ∧ j < g.tableau.length ∧ i ≠ j ∧
        0 < (g.tableau.getD i default).faceUp.length ∧
        g.isValid (Move.TABLEAU_TO_TABLEAU i 0 j) = true ∧
        m = Move.TABLEAU_TO_TABLEAU i 0 j := by
  simp only [Solver.getCardRevealingMovesList]
  rw [(sortJS_perm _ _).mem_iff]
  constructor
  · intro hm
    rw [List.mem_flatMap] at hm
    obtain ⟨i, hi, hmi⟩ := hm
    rw [List.mem_range] at hi
    by_cases hup : (g.tableau.getD i default).faceUp.length > 0
    · rw [if_pos hup] at hmi
      rw [List.mem_filterMap] at hmi
      obtain ⟨j, hj, hfj⟩ := hmi
      rw [List.mem_range] at hj
      by_cases hij : i = j
      · rw [if_pos (by simp [hij])] at hfj
        exact Option.noConfusion hfj
      · rw [if_neg (by simp [hij])] at hfj
        by_cases hv : g.isValid (Move.TABLEAU_TO_TABLEAU i 0 j) = true
        · rw [if_pos hv] at hfj
          exact ⟨i, j, hi, hj, hij, hup, hv, (Option.some.inj hfj).symm⟩
        · rw [if_neg hv] at hfj
          exact Option.noConfusion hfj
    · rw [if_neg hup] at hmi
      exact absurd hmi (List.not_mem_nil m)
  · rintro ⟨i, j, hi, hj, hij, hup, hv, rfl⟩
    rw [List.mem_flatMap]
    refine ⟨i, List.mem_range.mpr hi, ?_⟩
    rw [if_pos hup, List.mem_filterMap]
    refine ⟨j, List.mem_range.mpr hj, ?_⟩
    rw [if_neg (by simp [hij]), if_pos hv]

/-- Claim C6: on a cache miss, getCardRevealingMoves returns exactly the legal
whole-stack (srcRow = 0) tableau-to-tableau moves, ordered so that when some
column has an empty face-up pile, sources with more face-down cards come
first; when no column is empty, sources with fewer face-down cards come
first; ties are broken by ascending source column index. -/
theorem c6_card_revealing_moves (st : SolverSt) (g : Solitaire) (key : Str)
    (hmiss : st.revealCache.lookup key = none) :
    (∀ m, m ∈ (Solver.getCardRevealingMoves st g key).1 ↔
      ∃ i j, i < g.tableau.length ∧ j < g.tableau.length ∧ i ≠ j ∧
        0 < (g.tableau.getD i default).faceUp.length ∧
        g.isValid (Move.TABLEAU_TO_TABLEAU i 0 j) = true ∧
        m = Move.TABLEAU_TO_TABLEAU i 0 j) ∧
    (Solver.getCardRevealingMoves st g key).1.Pairwise (fun a b =>
      ((g.tableau.getD (a.extras.getD 0 0) default).faceDown.length ≠
          (g.tableau.getD (b.extras.getD 0 0) default).faceDown.length →
        (Solver.hasEmptySpace g.tableau = true →
          (g.tableau.getD (b.extras.getD 0 0) default).faceDown.length <
            (g.tableau.getD (a.extras.getD 0 0) default).faceDown.length) ∧
        (Solver.hasEmptySpace g.tableau = false →
          (g.tableau.getD (a.extras.getD 0 0) default).faceDown.length <
            (g.tableau.getD (b.extras.getD 0 0) default).faceDown.length)) ∧
      ((g.tableau.getD (a.extras.getD 0 0) default).faceDown.length =
          (g.tableau.getD (b.extras.getD 0 0) default).faceDown.length →
        a.extras.getD 0 0 ≤ b.extras.getD 0 0)) := by
  have hfst : (Solver.getCardRevealingMoves st g key).1 =
      Solver.getCardRevealingMovesList g := by
    simp [Solver.getCardRevealingMoves, hmiss]
  rw [hfst]
  refine ⟨fun m => revealList_mem g m, ?_⟩
  simp only [Solver.getCardRevealingMovesList]
  exact List.Pairwise.imp (fun hab => revealLe_rel g _ _ hab)
    (@sortJS_sorted Move (Solver.revealLe g) (revealLe_total g)
      (fun x y z hxy hyz => revealLe_trans g x y z hxy hyz) _)

/-- Witness for C6 at a fresh solver state and the position gameC6: the cache
lookup misses, the characterization holds, and the returned list is concretely
the two moves onto column 2, the one-face-down source first. -/
theorem c6_witness :
    (SolverSt.new 1).revealCache.lookup [] = none ∧
    ((∀ m, m ∈ (Solver.getCardRevealingMoves (SolverSt.new 1) gameC6 []).1 ↔
      ∃ i j, i < gameC6.tableau.length ∧ j < gameC6.tableau.length ∧ i ≠ j ∧
        0 < (gameC6.tableau.getD i default).faceUp.length ∧
        gameC6.isValid (Move.TABLEAU_TO_TABLEAU i 0 j) = true ∧
        m = Move.TABLEAU_TO_TABLEAU i 0 j) ∧
    (Solver.getCardRevealingMoves (SolverSt.new 1) gameC6 []).1.Pairwise (fun a b =>
      ((gameC6.tableau.getD (a.extras.getD 0 0) default).faceDown.length ≠
          (gameC6.tableau.getD (b.extras.getD 0 0) default).faceDown.length →
        (Solver.hasEmptySpace gameC6.tableau = true →
          (gameC6.tableau.getD (b.extras.getD 0 0) default).faceDown.length <
            (gameC6.tableau.getD (a.extras.getD 0 0) default).faceDown.length) ∧
        (Solver.hasEmptySpace gameC6.tableau = false →
          (gameC6.tableau.getD (a.extras.getD 0 0) default).faceDown.length <
            (gameC6.tableau.getD (b.extras.getD 0 0) default).faceDown.length)) ∧
      ((gameC6.tableau.getD (a.extras.getD 0 0) default).faceDown.length =
          (gameC6.tableau.getD (b.extras.getD 0 0) default).faceDown.length →
        a.extras.getD 0 0 ≤ b.extras.getD 0 0))) ∧
    (Solver.getCardRevealingMoves (SolverSt.new 1) gameC6 []).1 =
      [Move.TABLEAU_TO_TABLEAU 1 0 2, Move.TABLEAU_TO_TABLEAU 0 0 2] :=
  ⟨rfl, c6_card_revealing_moves (SolverSt.new 1) gameC6 [] rfl, by rfl⟩

/-! ## Claim C1: solver soundness -/

theorem clone_eq (g : Solitaire) : g.clone = g := rfl

theorem cardStr_length (c : Card) : (Card.str c).length = 2 := rfl

theorem bar_notMem_values : ∀ v : Nat, VALUES.getD v '?' ≠ '|' := by
  intro v
  by_cases hv : v < VALUES.length
  · rw [List.getD_eq_getElem?_getD, List.getElem?_eq_getElem hv]
    have : VALUES[v] ∈ VALUES := List.getElem_mem hv
    intro hc
    rw [Option.getD_some] at hc
    rw [hc] at this
    exact absurd this (by decide)
  · rw [List.getD_eq_default _ _ (by omega)]
    decide

theorem bar_notMem_cardStr (c : Card) : ('|' : Char) ∉ Card.str c := by
  intro h
  rw [Card.str] at h
  rcases List.mem_cons.mp h with h | h
  · exact bar_notMem_values c.v h.symm
  · rw [List.mem_singleton] at h
    cases hs : c.s <;> rw [hs] at h <;> exact absurd h (by decide)

theorem cardStr_inj {c d : Card} (h1 : c.v ≤ 12) (h2 : d.v ≤ 12)
    (h : Card.str c = Card.str d) : c = d := by
  obtain ⟨cv, cs⟩ := c
  obtain ⟨dv, ds⟩ := d
  simp only [Card.str, List.cons.injEq, and_true] at h
  obtain ⟨hval, hsuit⟩ := h
  simp only at h1 h2 hval hsuit
  have hs : cs = ds := by
    cases cs <;> cases ds <;> first | rfl | exact absurd hsuit (by decide)
  have hv : cv = dv := by
    interval_cases cv <;> interval_cases dv <;> revert hval <;> decide
  rw [hs, hv]

theorem joinStrs_len2_inj :
    ∀ (l1 l2 : List Str), (∀ s ∈ l1, s.length = 2) → (∀ s ∈ l2, s.length = 2) →
      joinStrs l1 = joinStrs l2 → l1 = l2
  | [], [], _, _, _ => rfl
  | [], s :: t, _, h2, heq => by
    have := congrArg List.length heq
    simp only [joinStrs, List.flatten_nil, List.length_nil, List.flatten_cons,
      List.length_append, h2 s (by simp)] at this
    omega
  | s :: t, [], h1, _, heq => by
    have := congrArg List.length heq
    simp only [joinStrs, List.flatten_nil, List.length_nil, List.flatten_cons,
      List.length_append, h1 s (by simp)] at this
    omega
  | s :: t, s2 :: t2, h1, h2, heq => by
    simp only [joinStrs, List.flatten_cons] at heq
    obtain ⟨hh, ht⟩ := List.append_inj heq
      (by rw [h1 s (by simp), h2 s2 (by simp)])
    rw [hh, joinStrs_len2_inj t t2 (fun x hx => h1 x (by simp [hx]))
      (fun x hx => h2 x (by simp [hx])) ht]

theorem joinCards_inj :
    ∀ (l1 l2 : List Card), (∀ c ∈ l1, c.v ≤ 12) → (∀ c ∈ l2, c.v ≤ 12) →
      joinStrs (l1.map Card.str) = joinStrs (l2.map Card.str) → l1 = l2 := by
  intro l1 l2 h1 h2 heq
  have hmap := joinStrs_len2_inj (l1.map Card.str) (l2.map Card.str)
    (by intro s hs; obtain ⟨c, _, rfl⟩ := List.mem_map.mp hs; rfl)
    (by intro s hs; obtain ⟨c, _, rfl⟩ := List.mem_map.mp hs; rfl) heq
  clear heq
  induction l1 generalizing l2 with
  | nil => cases l2 with
    | nil => rfl
    | cons c t => exact absurd hmap (by simp)
  | cons c t ih =>
    cases l2 with
    | nil => exact absurd hmap (by simp)
    | cons c2 t2 =>
      simp only [List.map_cons, List.cons.injEq] at hmap
      rw [cardStr_inj (h1 c (by simp)) (h2 c2 (by simp)) hmap.1,
        ih t2 (fun x hx => h1 x (by simp [hx])) (fun x hx => h2 x (by simp [hx]))
          hmap.2]

theorem intercalateStr_nil (sep : Str) : intercalateStr sep [] = [] := rfl

theorem intercalateStr_single (sep : Str) (a : Str) :
    intercalateStr sep [a] = a := by
  simp [intercalateStr]

theorem intercalateStr_cons2 (sep : Str) (a b : Str) (rest : List Str) :
    intercalateStr sep (a :: b :: rest) = a ++ sep ++ intercalateStr sep (b :: rest) := by
  simp [intercalateStr, List.intersperse]

theorem bar_split :
    ∀ (s1 : Str), ('|' : Char) ∉ s1 → ∀ (s2 : Str), ('|' : Char) ∉ s2 →
      ∀ (t1 t2 : Str), s1 ++ '|' :: t1 = s2 ++ '|' :: t2 → s1 = s2 ∧ t1 = t2
  | [], _, [], _, t1, t2, heq => by
    simp only [List.nil_append, List.cons.injEq, true_and] at heq
    exact ⟨rfl, heq⟩
  | [], _, c :: s2, hb2, t1, t2, heq => by
    simp only [List.nil_append, List.cons_append, List.cons.injEq] at heq
    exact absurd (heq.1 ▸ List.mem_cons_self c s2) hb2
  | c :: s1, hb1, [], _, t1, t2, heq => by
    simp only [List.nil_append, List.cons_append, List.cons.injEq] at heq
    exact absurd (heq.1 ▸ List.mem_cons_self c s1) hb1
  | c :: s1, hb1, c2 :: s2, hb2, t1, t2, heq => by
    simp only [List.cons_append, List.cons.injEq] at heq
    obtain ⟨h1, h2⟩ := bar_split s1 (fun h => hb1 (List.mem_cons_of_mem c h)) s2
      (fun h => hb2 (List.mem_cons_of_mem c2 h)) t1 t2 heq.2
    exact ⟨by rw [heq.1, h1], h2⟩

theorem intercalate_bar_inj :
    ∀ (p1 p2 : List Str), (∀ s ∈ p1, ('|' : Char) ∉ s) →
      (∀ s ∈ p2, ('|' : Char) ∉ s) → p1 ≠ [] → p2 ≠ [] →
      intercalateStr ['|'] p1 = intercalateStr ['|'] p2 → p1 = p2
  | [], _, _, _, hn1, _, _ => absurd rfl hn1
  | _ :: _, [], _, _, _, hn2, _ => absurd rfl hn2
  | [a], [b], _, _, _, _, heq => by
    rw [intercalateStr_single, intercalateStr_single] at heq
    rw [heq]
  | [a], b :: c :: r, h1, _, _, _, heq => by
    rw [intercalateStr_single, intercalateStr_cons2] at heq
    exact absurd (heq ▸ (by simp : ('|' : Char) ∈ b ++ ['|'] ++ intercalateStr ['|'] (c :: r)))
      (h1 a (by simp))
  | a :: c :: r, [b], _, h2, _, _, heq => by
    rw [intercalateStr_cons2, intercalateStr_single] at heq
    exact absurd (heq ▸ (by simp : ('|' : Char) ∈ a ++ ['|'] ++ intercalateStr ['|'] (c :: r)))
      (h2 b (by simp))
  | a :: c :: r, b :: c2 :: r2, h1, h2, _, _, heq => by
    rw [intercalateStr_cons2, intercalateStr_cons2, List.append_assoc,
      List.append_assoc, List.singleton_append, List.singleton_append] at heq
    obtain ⟨hab, hrest⟩ := bar_split a (h1 a (by simp)) b (h2 b (by simp)) _ _ heq
    have htail := intercalate_bar_inj (c :: r) (c2 :: r2)
      (fun s hs => h1 s (by simp [hs])) (fun s hs => h2 s (by simp [hs]))
      (by simp) (by simp) hrest
    rw [hab, htail]

theorem mem_tabMS {c : Card} : ∀ {t : List Column} {col : Column},
    col ∈ t → c ∈ col.faceUp → c ∈ tabMS t := by
  intro t
  induction t with
  | nil => intro col h; exact absurd h (List.not_mem_nil col)
  | cons c0 rest ih =>
    intro col hcol hc
    rw [tabMS, List.map_cons, List.sum_cons, Multiset.mem_add]
    rcases List.mem_cons.mp hcol with h | h
    · left
      rw [← h, colMS, Multiset.mem_add]
      right
      exact Multiset.mem_coe.mpr hc
    · right
      exact ih h hc

theorem wf_faceUp_bound {g : Solitaire} (hw : WellFormed g) :
    ∀ col ∈ g.tableau, ∀ c ∈ col.faceUp, c.v ≤ 12 := by
  intro col hcol c hc
  have hmem : c ∈ cardsMS g := by
    rw [cardsMS, Multiset.mem_add, Multiset.mem_add]
    exact Or.inl (Or.inr (mem_tabMS hcol hc))
  rw [hw.1, Multiset.mem_coe] at hmem
  have hdeck : ∀ c ∈ SORTED_DECK, c.v ≤ 12 := by decide
  exact hdeck c hmem

theorem map_colStr_inj :
    ∀ (t1 t2 : List Column),
      (∀ col ∈ t1, ∀ c ∈ col.faceUp, c.v ≤ 12) →
      (∀ col ∈ t2, ∀ c ∈ col.faceUp, c.v ≤ 12) →
      t1.map (fun c => joinStrs (c.faceUp.map Card.str)) =
        t2.map (fun c => joinStrs (c.faceUp.map Card.str)) →
      t1.map Column.faceUp = t2.map Column.faceUp
  | [], [], _, _, _ => rfl
  | [], c :: t, _, _, heq => absurd heq (by simp)
  | c :: t, [], _, _, heq => absurd heq (by simp)
  | c :: t, c2 :: t2, h1, h2, heq => by
    simp only [List.map_cons, List.cons.injEq] at heq ⊢
    exact ⟨joinCards_inj c.faceUp c2.faceUp (h1 c (by simp)) (h2 c2 (by simp))
        heq.1,
      map_colStr_inj t t2 (fun x hx => h1 x (by simp [hx]))
        (fun x hx => h2 x (by simp [hx])) heq.2⟩

theorem faceUps_eq_of_key {g g2 : Solitaire}
    (hb1 : ∀ col ∈ g.tableau, ∀ c ∈ col.faceUp, c.v ≤ 12)
    (hb2 : ∀ col ∈ g2.tableau, ∀ c ∈ col.faceUp, c.v ≤ 12)
    (h1 : g.tableau ≠ []) (h2 : g2.tableau ≠ [])
    (hk : tableauCacheString g = tableauCacheString g2) :
    g.tableau.map Column.faceUp = g2.tableau.map Column.faceUp := by
  have hbar : ∀ (t : List Column),
      ∀ s ∈ t.map (fun c => joinStrs (c.faceUp.map Card.str)), ('|' : Char) ∉ s := by
    intro t s hs hmem
    obtain ⟨col, _, rfl⟩ := List.mem_map.mp hs
    rw [joinStrs] at hmem
    obtain ⟨piece, hp, hmem2⟩ := List.mem_flatten.mp hmem
    obtain ⟨c, _, rfl⟩ := List.mem_map.mp hp
    exact bar_notMem_cardStr c hmem2
  simp only [tableauCacheString] at hk
  have hpieces := intercalate_bar_inj
    (g.tableau.map (fun c => joinStrs (c.faceUp.map Card.str)))
    (g2.tableau.map (fun c => joinStrs (c.faceUp.map Card.str)))
    (hbar g.tableau) (hbar g2.tableau)
    (by simp [h1]) (by simp [h2]) hk
  exact map_colStr_inj g.tableau g2.tableau hb1 hb2 hpieces

theorem getD_map_faceUp (t : List Column) (n : Nat) :
    (t.map Column.faceUp).getD n [] = (t.getD n default).faceUp := by
  rw [List.getD_eq_getElem?_getD, List.getD_eq_getElem?_getD, List.getElem?_map]
  cases t[n]? <;> rfl

theorem isValid_t2t_faceUps {g g2 : Solitaire}
    (h : g.tableau.map Column.faceUp = g2.tableau.map Column.faceUp)
    (i j k : Nat) :
    g2.isValid (Move.TABLEAU_TO_TABLEAU i j k) =
      g.isValid (Move.TABLEAU_TO_TABLEAU i j k) := by
  have hlen : g2.tableau.length = g.tableau.length := by
    have := congrArg List.length h
    simpa using this.symm
  have hfu : ∀ n, (g2.tableau.getD n default).faceUp =
      (g.tableau.getD n default).faceUp := by
    intro n
    rw [← getD_map_faceUp, ← getD_map_faceUp, h]
  simp only [Solitaire.isValid, hlen, hfu]

theorem nonrevealList_shape (g : Solitaire) (m : Move)
    (hm : m ∈ Solver.getMovesTableauToTableauList g) :
    ∃ i j k, m = Move.TABLEAU_TO_TABLEAU i j k := by
  unfold Solver.getMovesTableauToTableauList at hm
  simp only [List.mem_flatMap, List.mem_range, List.mem_filterMap] at hm
  obtain ⟨i, _, j, _, k, _, hfk⟩ := hm
  by_cases hik : (i == k) = true
  · rw [if_pos hik] at hfk
    exact Option.noConfusion hfk
  · rw [if_neg hik] at hfk
    by_cases hv : g.isValid (Move.TABLEAU_TO_TABLEAU i j k) = true
    · rw [if_pos hv] at hfk
      exact ⟨i, j, k, (Option.some.inj hfk).symm⟩
    · rw [if_neg hv] at hfk
      exact Option.noConfusion hfk

/-- The tableau cache key determines validity of the cached tableau-to-tableau
moves: a move generated and validated in one well-formed game is valid in any
well-formed game sharing the same cache string. -/
theorem t2t_lists_transfer {g g2 : Solitaire} (hwg : WellFormed g)
    (hw2 : WellFormed g2) (hk : tableauCacheString g2 = tableauCacheString g) :
    (∀ m ∈ Solver.getCardRevealingMovesList g, g2.isValid m = true) ∧
    (∀ m ∈ Solver.getMovesTableauToTableauList g, g2.isValid m = true) := by
  by_cases h1 : g.tableau = []
  · constructor <;> intro m hm
    · rw [Solver.getCardRevealingMovesList, h1] at hm
      simp [sortJS] at hm
    · rw [Solver.getMovesTableauToTableauList, h1] at hm
      simp at hm
  · by_cases h2 : g2.tableau = []
    · have hkey : tableauCacheString g = [] := by
        rw [← hk, tableauCacheString, h2]
        rfl
      have hsingle : ∃ col, g.tableau = [col] ∧ col.faceUp = [] := by
        rw [tableauCacheString] at hkey
        match htab : g.tableau, h1 with
        | [col], _ =>
          rw [htab, List.map_cons, List.map_nil, intercalateStr_single] at hkey
          refine ⟨col, rfl, ?_⟩
          match hfu : col.faceUp with
          | [] => rfl
          | c :: rest =>
            rw [hfu, List.map_cons, joinStrs, List.flatten_cons] at hkey
            have := congrArg List.length hkey
            simp [cardStr_length] at this
        | a :: b :: r, _ =>
          rw [htab, List.map_cons, List.map_cons, intercalateStr_cons2] at hkey
          have := congrArg List.length hkey
          simp at this
      obtain ⟨col, hcol, hfu⟩ := hsingle
      constructor <;> intro m hm
      · rw [Solver.getCardRevealingMovesList, hcol] at hm
        simp [hfu, sortJS, List.range_succ] at hm
      · rw [Solver.getMovesTableauToTableauList, hcol] at hm
        simp [hfu, List.range_succ] at hm
    · have hfus := faceUps_eq_of_key (wf_faceUp_bound hwg) (wf_faceUp_bound hw2)
        h1 h2 hk.symm
      constructor <;> intro m hm
      · obtain ⟨i, j, _, _, _, _, hv, rfl⟩ := (revealList_mem g m).mp hm
        rw [isValid_t2t_faceUps hfus]
        exact hv
      · obtain ⟨i, j, k, rfl⟩ := nonrevealList_shape g m hm
        rw [isValid_t2t_faceUps hfus]
        exact nonrevealList_valid g _ hm

theorem lookup_cons (a : Str) (b : List Move) (rest : List (Str × List Move))
    (q : Str) :
    List.lookup q ((a, b) :: rest) = if q = a then some b else List.lookup q rest := by
  by_cases h : q = a
  · rw [if_pos h, List.lookup, beq_iff_eq.mpr h]
  · rw [if_neg h, List.lookup, beq_eq_false_iff_ne.mpr h]

theorem lookup_map_replace_ne (k q : Str) (v : List Move) (hqk : q ≠ k) :
    ∀ (m : List (Str × List Move)),
      (m.map (fun p => if p.1 == k then (k, v) else p)).lookup q = m.lookup q := by
  intro m
  induction m with
  | nil => rfl
  | cons p rest ih =>
    obtain ⟨a, b⟩ := p
    rw [List.map_cons]
    by_cases hak : (a == k) = true
    · have ha : a = k := beq_iff_eq.mp hak
      subst ha
      rw [if_pos hak, lookup_cons, lookup_cons, if_neg hqk, if_neg hqk, ih]
    · rw [if_neg hak, lookup_cons, lookup_cons, ih]

theorem lookup_map_replace_eq (k : Str) (v : List Move) :
    ∀ (m : List (Str × List Move)), (m.lookup k).isSome = true →
      (m.map (fun p => if p.1 == k then (k, v) else p)).lookup k = some v := by
  intro m
  induction m with
  | nil => intro hs; simp [List.lookup] at hs
  | cons p rest ih =>
    obtain ⟨a, b⟩ := p
    intro hs
    rw [List.map_cons]
    by_cases hak : (a == k) = true
    · have ha : a = k := beq_iff_eq.mp hak
      subst ha
      rw [if_pos hak, lookup_cons, if_pos rfl]
    · have hka : k ≠ a := by
        intro h
        exact absurd (beq_iff_eq.mpr h.symm) hak
      rw [lookup_cons, if_neg hka] at hs
      rw [if_neg hak, lookup_cons, if_neg hka, ih hs]

theorem lookup_append_single_ne (k q : Str) (v : List Move) (hqk : q ≠ k) :
    ∀ (m : List (Str × List Move)), (m ++ [(k, v)]).lookup q = m.lookup q := by
  intro m
  induction m with
  | nil => rw [List.nil_append, lookup_cons, if_neg hqk, List.lookup]
  | cons p rest ih =>
    obtain ⟨a, b⟩ := p
    rw [List.cons_append, lookup_cons, lookup_cons, ih]

theorem lookup_append_single_eq (k : Str) (v : List Move) :
    ∀ (m : List (Str × List Move)), m.lookup k = none →
      (m ++ [(k, v)]).lookup k = some v := by
  intro m
  induction m with
  | nil => intro _; rw [List.nil_append, lookup_cons, if_pos rfl]
  | cons p rest ih =>
    obtain ⟨a, b⟩ := p
    intro hn
    rw [lookup_cons] at hn
    by_cases hka : k = a
    · rw [if_pos hka] at hn
      exact Option.noConfusion hn
    · rw [if_neg hka] at hn
      rw [List.cons_append, lookup_cons, if_neg hka, ih hn]

/-- ES6 Map.set followed by Map.get: the new key maps to the new value, other
keys are unchanged. -/
theorem lookup_mapSet (m : List (Str × List Move)) (k q : Str) (v : List Move) :
    (mapSet m k v).lookup q = if q = k then some v else m.lookup q := by
  rw [mapSet]
  by_cases hs : (List.lookup k m).isSome = true
  · rw [if_pos hs]
    by_cases hqk : q = k
    · subst hqk
      rw [if_pos rfl]
      exact lookup_map_replace_eq q v m hs
    · rw [if_neg hqk]
      exact lookup_map_replace_ne k q v hqk m
  · rw [if_neg hs]
    by_cases hqk : q = k
    · subst hqk
      rw [if_pos rfl]
      refine lookup_append_single_eq q v m ?_
      rcases ho : List.lookup q m with _ | w
      · rfl
      · rw [ho] at hs
        simp at hs
    · rw [if_neg hqk]
      exact lookup_append_single_ne k q v hqk m

theorem cacheOK_nil : CacheOK [] := by
  intro k ms h
  exact Option.noConfusion h

theorem stOK_new (cacheSize : Nat) : StOK (SolverSt.new cacheSize) :=
  ⟨cacheOK_nil, cacheOK_nil⟩

theorem getCardRevealingMoves_sound {st : SolverSt} {game : Solitaire}
    (hw : WellFormed game) (hok : CacheOK st.revealCache) :
    CacheOK (Solver.getCardRevealingMoves st game (tableauCacheString game)).2.revealCache ∧
    (Solver.getCardRevealingMoves st game (tableauCacheString game)).2.nonrevealCache =
      st.nonrevealCache ∧
    ∀ m ∈ (Solver.getCardRevealingMoves st game (tableauCacheString game)).1,
      game.isValid m = true := by
  rw [Solver.getCardRevealingMoves]
  match hl : st.revealCache.lookup (tableauCacheString game) with
  | some ms =>
    refine ⟨hok, rfl, ?_⟩
    intro m hm
    exact hok (tableauCacheString game) ms hl game hw rfl m hm
  | none =>
    refine ⟨?_, rfl, fun m hm => revealList_valid game m hm⟩
    intro k ms hlk g2 hw2 hk2 m hm
    rw [lookup_mapSet] at hlk
    by_cases hkk : k = tableauCacheString game
    · rw [if_pos hkk] at hlk
      have hms := Option.some.inj hlk
      subst hms
      exact (t2t_lists_transfer hw hw2 (by rw [hk2, hkk])).1 m hm
    · rw [if_neg hkk] at hlk
      exact hok k ms hlk g2 hw2 hk2 m hm

theorem getMovesTableauToTableau_sound {st : SolverSt} {game : Solitaire}
    (hw : WellFormed game) (hok : CacheOK st.nonrevealCache) :
    CacheOK (Solver.getMovesTableauToTableau st game (tableauCacheString game)).2.nonrevealCache ∧
    (Solver.getMovesTableauToTableau st game (tableauCacheString game)).2.revealCache =
      st.revealCache ∧
    ∀ m ∈ (Solver.getMovesTableauToTableau st game (tableauCacheString game)).1,
      game.isValid m = true := by
  rw [Solver.getMovesTableauToTableau]
  match hl : st.nonrevealCache.lookup (tableauCacheString game) with
  | some ms =>
    refine ⟨hok, rfl, ?_⟩
    intro m hm
    exact hok (tableauCacheString game) ms hl game hw rfl m hm
  | none =>
    refine ⟨?_, rfl, fun m hm => nonrevealList_valid game m hm⟩
    intro k ms hlk g2 hw2 hk2 m hm
    rw [lookup_mapSet] at hlk
    by_cases hkk : k = tableauCacheString game
    · rw [if_pos hkk] at hlk
      have hms := Option.some.inj hlk
      subst hms
      exact (t2t_lists_transfer hw hw2 (by rw [hk2, hkk])).2 m hm
    · rw [if_neg hkk] at hlk
      exact hok k ms hlk g2 hw2 hk2 m hm

theorem getValidMoves_sound {st : SolverSt} {game : Solitaire}
    (hw : WellFormed game) (hok : StOK st) :
    StOK (Solver.getValidMoves st game).2 ∧
    ∀ m ∈ (Solver.getValidMoves st game).1, game.isValid m = true := by
  obtain ⟨hok1, hok2⟩ := hok
  have h1 := getCardRevealingMoves_sound hw hok1
  have h2 := getMovesTableauToTableau_sound hw (h1.2.1 ▸ hok2)
  rw [Solver.getValidMoves]
  refine ⟨⟨h2.2.1 ▸ h1.1, h2.1⟩, ?_⟩
  intro m hm
  simp only [List.mem_append] at hm
  rcases hm with ((((hm | hm) | hm) | hm) | hm) | hm
  · exact aceMoves_valid hw m hm
  · exact movesToFoundation_valid game m hm
  · exact h1.2.2 m hm
  · exact wasteToTableauMoves_valid game m hm
  · exact drawMove_valid game m hm
  · exact h2.2.2 m hm

theorem mAMCore_sound
    (rec : Solitaire → List Str → Bool → Nat → SolverSt →
      Option (List Move) × List Str × SolverSt)
    (hrec : ∀ g2 s2 c2 d2 st2, WellFormed g2 → StOK st2 →
      StOK (rec g2 s2 c2 d2 st2).2.2 ∧
      ∀ ms, (rec g2 s2 c2 d2 st2).1 = some ms → ReplayWinning g2 ms = true)
    (move : Move) (game : Solitaire) (seen : List Str) (cfd : Bool) (depth : Nat)
    (st : SolverSt) (hw : WellFormed game) (hok : StOK st)
    (hv : game.isValid move = true) :
    StOK (Solver.maybeApplyMoveCore rec move game seen cfd depth st).2.2 ∧
    ∀ ms, (Solver.maybeApplyMoveCore rec move game seen cfd depth st).1 = some ms →
      ReplayWinning (game.applyMove move) ms = true := by
  have hw2 : WellFormed (game.applyMove move) := applyMove_wellFormed hw hv
  cases move with
  | DRAW =>
    rw [Solver.maybeApplyMoveCore]
    by_cases hh : (game.hand.length == 0) = true
    · rw [if_pos hh]
      by_cases hc : cfd = true
      · rw [if_pos hc]
        exact hrec _ _ _ _ _ hw2 hok
      · rw [if_neg hc]
        exact ⟨hok, fun ms h => Option.noConfusion h⟩
    · rw [if_neg hh]
      exact hrec _ _ _ _ _ hw2 hok
  | WASTE_TO_FOUNDATION =>
    rw [Solver.maybeApplyMoveCore]
    exact hrec _ _ _ _ _ hw2 hok
  | WASTE_TO_TABLEAU d =>
    rw [Solver.maybeApplyMoveCore]
    exact hrec _ _ _ _ _ hw2 hok
  | TABLEAU_TO_FOUNDATION s =>
    rw [Solver.maybeApplyMoveCore]
    · exact hrec _ _ _ _ _ hw2 hok
    all_goals simp
  | FOUNDATION_TO_TABLEAU a b =>
    rw [Solver.maybeApplyMoveCore]
    · exact hrec _ _ _ _ _ hw2 hok
    all_goals simp
  | TABLEAU_TO_TABLEAU sc sr dc =>
    simp only [Solver.maybeApplyMoveCore]
    split_ifs with hg
    · exact ⟨hok, by intro ms h; simp at h⟩
    · set cg : Solitaire :=
        (game.clone).applyMove (Move.TABLEAU_TO_TABLEAU sc sr dc) with hcg
      set a : Str := joinStrs ((cg.tableau.getD sc default).faceUp.map Card.str)
        with ha
      set b : Str := joinStrs ((cg.tableau.getD dc default).faceUp.map Card.str)
        with hb
      obtain ⟨hst2, hrw⟩ := hrec cg (addStack (addStack seen a) b) cfd (depth + 1)
        st hw2 hok
      rcases hr : rec cg (addStack (addStack seen a) b) cfd (depth + 1) st
        with ⟨o, s2, st2⟩
      rw [hr] at hst2 hrw
      cases o with
      | some wm =>
        refine ⟨hst2, ?_⟩
        intro ms hms
        have hms2 : wm = ms := Option.some.inj hms
        subst hms2
        exact hrw wm rfl
      | none =>
        exact ⟨hst2, fun ms h => Option.noConfusion h⟩

theorem tryMoves_sound
    (rec : Solitaire → List Str → Bool → Nat → SolverSt →
      Option (List Move) × List Str × SolverSt)
    (hrec : ∀ g2 s2 c2 d2 st2, WellFormed g2 → StOK st2 →
      StOK (rec g2 s2 c2 d2 st2).2.2 ∧
      ∀ ms, (rec g2 s2 c2 d2 st2).1 = some ms → ReplayWinning g2 ms = true) :
    ∀ (moves : List Move) (game : Solitaire) (seen : List Str) (cfd : Bool)
      (depth : Nat) (st : SolverSt), WellFormed game → StOK st →
      (∀ m ∈ moves, game.isValid m = true) →
      StOK (Solver.tryMoves rec moves game seen cfd depth st).2.2 ∧
      ∀ ms, (Solver.tryMoves rec moves game seen cfd depth st).1 = some ms →
        ReplayWinning game ms = true
  | [], game, seen, cfd, depth, st, _, hok, _ =>
    ⟨hok, fun ms h => Option.noConfusion h⟩
  | move :: rest, game, seen, cfd, depth, st, hw, hok, hvm => by
    rw [Solver.tryMoves]
    have hmam := mAMCore_sound rec hrec move game seen cfd depth st hw hok
      (hvm move (by simp))
    rcases hr : Solver.maybeApplyMoveCore rec move game seen cfd depth st
      with ⟨o, s2, st2⟩
    rw [hr] at hmam
    cases o with
    | some wm =>
      refine ⟨hmam.1, ?_⟩
      intro ms hms
      have hms2 : move :: wm = ms := Option.some.inj hms
      subst hms2
      rw [ReplayWinning, hvm move (by simp), hmam.2 wm rfl]
      rfl
    | none =>
      exact tryMoves_sound rec hrec rest game s2 cfd depth st2 hw hmam.1
        (fun m hm => hvm m (by simp [hm]))

/-- Soundness of the search: along any run the tableau move caches stay sound,
and a returned move list replays to a win from the node's game state. -/
theorem gWM_sound (oracle : Nat → Bool) :
    ∀ (fuel : Nat) (game : Solitaire) (seen : List Str) (cfd : Bool)
      (depth : Nat) (st : SolverSt), WellFormed game → StOK st →
      StOK (Solver.getWinningMoves oracle fuel game seen cfd depth st).2.2 ∧
      ∀ ms, (Solver.getWinningMoves oracle fuel game seen cfd depth st).1 = some ms →
        ReplayWinning game ms = true := by
  intro fuel
  induction fuel with
  | zero =>
    intro game seen cfd depth st _ hok
    exact ⟨hok, fun ms h => Option.noConfusion h⟩
  | succ fuel ih =>
    intro game seen cfd depth st hw hok
    simp only [Solver.getWinningMoves]
    split_ifs with h1 h2 h3
    · exact ⟨hok, fun ms h => h.elim⟩
    · refine ⟨hok, ?_⟩
      intro ms hms
      have hms2 : ([] : List Move) = ms := Option.some.inj hms
      subst hms2
      rw [ReplayWinning]
      exact h2
    · exact ⟨hok, fun ms h => h.elim⟩
    · have key : ∀ stx : SolverSt, StOK stx →
          StOK (Solver.tryMoves
            (fun g2 s2 c2 d2 sty => Solver.getWinningMoves oracle fuel g2 s2 c2 d2 sty)
            (Solver.getValidMoves stx game).1 game seen cfd depth
            (Solver.getValidMoves stx game).2).2.2 ∧
          ∀ ms, (Solver.tryMoves
            (fun g2 s2 c2 d2 sty => Solver.getWinningMoves oracle fuel g2 s2 c2 d2 sty)
            (Solver.getValidMoves stx game).1 game seen cfd depth
            (Solver.getValidMoves stx game).2).1 = some ms →
            ReplayWinning game ms = true := by
        intro stx hokx
        have hmv := getValidMoves_sound hw hokx
        exact tryMoves_sound
          (fun g2 s2 c2 d2 sty => Solver.getWinningMoves oracle fuel g2 s2 c2 d2 sty)
          (fun g2 s2 c2 d2 sty hw2 hok2 => ih g2 s2 c2 d2 sty hw2 hok2)
          (Solver.getValidMoves stx game).1 game seen cfd depth
          (Solver.getValidMoves stx game).2 hw hmv.1 hmv.2
      exact key _ ⟨hok.1, hok.2⟩

/-- Claim C1: soundness of the solver.  For every deck that is a permutation
of the 52-card deck, whenever getWinningMoves (run from the solver's entry
point on a fresh game and fresh solver state, with any timeout behaviour and
any fuel) returns a move list, replaying those moves in order on a fresh game
from the same deck finds every move valid at the state where it is replayed
and ends in a won state. -/
theorem c1_solver_soundness (oracle : Nat → Bool) (fuel : Nat) (rules : Rules)
    (deck : List Card) (cacheSize : Nat) (ms : List Move)
    (hdeck : deck.Perm SORTED_DECK)
    (hms : (Solver.getWinningMoves oracle fuel (Solitaire.new rules deck) []
      false 0 (SolverSt.new cacheSize)).1 = some ms) :
    ReplayWinning (Solitaire.new rules deck) ms = true :=
  (gWM_sound oracle fuel (Solitaire.new rules deck) [] false 0
    (SolverSt.new cacheSize) (new_wellFormed rules deck hdeck)
    (stOK_new cacheSize)).2 ms hms

set_option maxRecDepth 1000000 in
/-- Witness for C1: on the reversed sorted deck with draw size 1 and a single
tableau column, the search returns the forced 103-move win, and replaying it
wins. -/
theorem c1_witness :
    SORTED_DECK.reverse.Perm SORTED_DECK ∧
    (Solver.getWinningMoves (fun _ => false) 110
      (Solitaire.new ⟨1, 1⟩ SORTED_DECK.reverse) [] false 0 (SolverSt.new 1)).1 =
      some (Move.TABLEAU_TO_FOUNDATION 0 ::
        (List.replicate 51 [Move.DRAW, Move.WASTE_TO_FOUNDATION]).flatten) ∧
    ReplayWinning (Solitaire.new ⟨1, 1⟩ SORTED_DECK.reverse)
      (Move.TABLEAU_TO_FOUNDATION 0 ::
        (List.replicate 51 [Move.DRAW, Move.WASTE_TO_FOUNDATION]).flatten) = true := by
  have hperm : SORTED_DECK.reverse.Perm SORTED_DECK := List.reverse_perm SORTED_DECK
  have hsolve : (Solver.getWinningMoves (fun _ => false) 110
      (Solitaire.new ⟨1, 1⟩ SORTED_DECK.reverse) [] false 0 (SolverSt.new 1)).1 =
      some (Move.TABLEAU_TO_FOUNDATION 0 ::
        (List.replicate 51 [Move.DRAW, Move.WASTE_TO_FOUNDATION]).flatten) := by rfl
  exact ⟨hperm, hsolve, c1_solver_soundness (fun _ => false) 110 ⟨1, 1⟩
    SORTED_DECK.reverse 1 _ hperm hsolve⟩
